import Mathlib

/-
A shallow embedding of the DataLoader batching-and-caching engine
(`dataloader.ts`): the `load` / `loadMany` / `prime` / `clear` operations,
`getCurrentBatch`, `dispatchBatch`, `failedDispatch`, `resolveCacheHits`
and the constructor-time option validators, together with proofs of the
behavioural properties of the engine.

Modelling choices:
- Promises are ids into an arena of promise states; a promise is pending,
  settled with an outcome, or resolved with another promise (JS promise
  adoption: it tracks that promise's eventual outcome).
- The event loop is explicit: creating a batch enqueues its id on a queue
  of pending dispatch callbacks; running the scheduled callbacks of a tick
  dispatches those batches in order.
- The backend `_batchLoadFn` is an explicit parameter of dispatching,
  `backend : List K → BackendResult V`, describing how the call settles
  for a given key array; every invocation is logged in `backendCalls`.
- Thrown `TypeError`s carry the static part of the source's message text
  (the parts produced by string interpolation are elided); `console.log`
  output in the resolve loop is I/O and is elided.
-/

namespace DLModel

/-- JavaScript error values: `TypeError`s thrown by the library and
arbitrary other error values (backend rejection reasons or `Error`
items inside a backend response). -/
inductive JsError where
  | typeError (msg : String)
  | custom (tag : Nat)
  deriving DecidableEq

/-- An element of the backend response array: a plain value or an `Error`
instance (the source discriminates with `value instanceof Error`). -/
inductive BatchValue (V : Type) where
  | val (v : V)
  | err (e : JsError)
  deriving DecidableEq

/-- The settlement of a promise. -/
inductive Outcome (V : Type) where
  | resolved (v : V)
  | rejected (e : JsError)
  deriving DecidableEq

/-- The state of one promise in the arena: pending, settled, or resolved
with another promise (JS promise adoption, as when a cache-hit promise is
resolved with the cached promise: it then tracks the target's outcome). -/
inductive PState (V : Type) where
  | pending
  | settled (o : Outcome V)
  | linked (target : Nat)
  deriving DecidableEq

/-- The source's private `Batch` record: `hasDispatched`, the parallel
`keys` and `callbacks` arrays (a callback is the resolve/reject pair of
the promise created in `load`, here the promise's arena id), and the
optional `cacheHits` array (the source stores closures
`() => resolve(cachedPromise)`; each is modelled by the pair of the
promise to resolve and the cached promise it adopts). -/
structure Batch (K : Type) where
  hasDispatched : Bool
  keys : List K
  callbacks : List Nat
  cacheHits : Option (List (Nat × Nat))
  deriving DecidableEq

/-- How the backend `batchLoadFn` call behaves, as observed by
`dispatchBatch`: not a thenable at all, a promise that rejects, a promise
resolving with a non-array-like value, or a promise resolving with an
array of values-or-Errors. -/
inductive BackendResult (V : Type) where
  | notThenable
  | rejects (e : JsError)
  | resolvesNonArray
  | resolvesArray (values : List (BatchValue V))
  deriving DecidableEq

/-- The DataLoader instance state (`_maxBatchSize`, `_cacheKeyFn`,
`_batch`, `_cacheMap`) plus the event-loop bookkeeping the embedding
makes explicit: the arena of all promises and of all batches ever
created, the queue of scheduled not-yet-run batch dispatch callbacks,
and the log of backend invocations (the key array of each
`_batchLoadFn` call, in call order). -/
structure Loader (K C V : Type) where
  /-- Field `_maxBatchSize`; `none` models `Infinity` (the batching default). -/
  maxBatchSize : Option Nat
  /-- Field `_cacheKeyFn`. -/
  cacheKeyFn : K → C
  /-- The promise arena; a promise id is an index into this list. -/
  promises : List (PState V)
  /-- The batch arena; a batch id is an index into this list. -/
  batches : List (Batch K)
  /-- Field `_batch`: the current batch, as an index into `batches`. -/
  batch : Option Nat
  /-- Field `_cacheMap`: association list from cache key to cached promise id;
  `none` when caching is disabled. -/
  cacheMap : Option (List (C × Nat))
  /-- Scheduled dispatch callbacks not yet run (batch ids, in the order
  `_batchScheduleFn` was invoked for them). -/
  pendingDispatches : List Nat
  /-- The key array of every backend call made so far, in call order. -/
  backendCalls : List (List K)

/-- A fresh loader, as built by a constructor call that validated its
options: given max batch size, cache key function, and whether caching is
enabled (a fresh empty `Map` when it is). -/
def mkLoader {K C V : Type} (m : Option Nat) (f : K → C) (caching : Bool) :
    Loader K C V :=
  { maxBatchSize := m
    cacheKeyFn := f
    promises := []
    batches := []
    batch := none
    cacheMap := if caching then some [] else none
    pendingDispatches := []
    backendCalls := [] }

/-! ### List and association-list helpers (ES6 `Map` as association list) -/

/-- Replace the element at index `i` by `f` of it; out-of-range is the
identity. -/
def updateAt {α : Type} : List α → Nat → (α → α) → List α
  | [], _, _ => []
  | x :: rest, 0, f => f x :: rest
  | x :: rest, n + 1, f => x :: updateAt rest n f

/-- Models `Map.prototype.get`: first binding of the key, if any. -/
def assocLookup {C : Type} [DecidableEq C] : List (C × Nat) → C → Option Nat
  | [], _ => none
  | (a, v) :: rest, k => if a = k then some v else assocLookup rest k

/-- Models `Map.prototype.set`: update the binding in place if present, append
otherwise. -/
def assocSet {C : Type} [DecidableEq C] : List (C × Nat) → C → Nat → List (C × Nat)
  | [], k, v => [(k, v)]
  | (a, w) :: rest, k, v =>
    if a = k then (k, v) :: rest else (a, w) :: assocSet rest k v

/-- Models `Map.prototype.delete`: remove the binding for the key. -/
def assocDelete {C : Type} [DecidableEq C] (m : List (C × Nat)) (k : C) :
    List (C × Nat) :=
  m.filter (fun p => decide (p.1 ≠ k))

/-! ### Promise arena operations -/

/-- Settle a pending promise with an outcome; resolving or rejecting an
already-settled or already-adopted promise is a no-op (single
assignment). -/
def settlePid {V : Type} (ps : List (PState V)) (pid : Nat) (o : Outcome V) :
    List (PState V) :=
  updateAt ps pid (fun st => match st with
    | .pending => .settled o
    | st => st)

/-- Resolve a pending promise with another promise (promise adoption);
a no-op if it is not pending. -/
def linkPid {V : Type} (ps : List (PState V)) (pid target : Nat) :
    List (PState V) :=
  updateAt ps pid (fun st => match st with
    | .pending => .linked target
    | st => st)

/-- The eventual outcome of a promise, following adoption links, with
explicit fuel. -/
def outcomeOfFuel {V : Type} : Nat → List (PState V) → Nat → Option (Outcome V)
  | 0, _, _ => none
  | fuel + 1, ps, pid =>
    match ps.get? pid with
    | some (.settled o) => some o
    | some (.linked t) => outcomeOfFuel fuel ps t
    | _ => none

/-- The eventual outcome of a promise: `none` while it is pending (or
adopted a pending promise), `some` once settled. Adoption links in
reachable states always point to earlier-allocated promises, so fuel
equal to the arena size suffices. -/
def outcomeOf {V : Type} (ps : List (PState V)) (pid : Nat) : Option (Outcome V) :=
  outcomeOfFuel ps.length ps pid

/-! ### The engine operations -/

/-- The check `keys.length < maxBatchSize`, where the size may be `Infinity`. -/
def underMax : Option Nat → Nat → Bool
  | none, _ => true
  | some m, n => n < m

/-- The condition under which `getCurrentBatch` reuses the existing batch:
not yet dispatched, key count below the maximum, and the cache-hit list
(when it exists) also below the maximum. -/
def batchUsable {K C V : Type} (l : Loader K C V) (b : Batch K) : Bool :=
  !b.hasDispatched &&
  underMax l.maxBatchSize b.keys.length &&
  (match b.cacheHits with
   | none => true
   | some hs => underMax l.maxBatchSize hs.length)

/-- Source `getCurrentBatch`: return the existing batch if it is usable,
otherwise create a fresh batch, store it as the current batch, and
schedule exactly one future dispatch of it. Returns the batch id. -/
def getCurrentBatch {K C V : Type} (l : Loader K C V) : Nat × Loader K C V :=
  let fresh : Nat × Loader K C V :=
    (l.batches.length,
     { l with
        batches := l.batches ++ [⟨false, [], [], none⟩]
        batch := some l.batches.length
        pendingDispatches := l.pendingDispatches ++ [l.batches.length] })
  match l.batch with
  | none => fresh
  | some bid =>
    match l.batches.get? bid with
    | none => fresh
    | some b => if batchUsable l b then (bid, l) else fresh

/-- The cache-miss arm of `load`: push the key and a fresh promise onto
the batch, then cache the promise when caching is enabled. Returns the
new promise id. -/
def loadMiss {K C V : Type} (l : Loader K C V) (bid : Nat) (key : K)
    (cacheKey : C) [DecidableEq C] : Nat × Loader K C V :=
  let newPid := l.promises.length
  let l2 : Loader K C V :=
    { l with
        batches := updateAt l.batches bid (fun b =>
          { b with keys := b.keys ++ [key], callbacks := b.callbacks ++ [newPid] })
        promises := l.promises ++ [.pending] }
  match l2.cacheMap with
  | some cm => (newPid, { l2 with cacheMap := some (assocSet cm cacheKey newPid) })
  | none => (newPid, l2)

/-- The body of `load` for a non-null key: obtain the current batch,
then either the cache-hit path (queue a cache-hit notification resolving
a fresh promise with the cached promise, without touching the batch's
keys) or the cache-miss path. Returns the id of the promise `load`
returns. -/
def loadK {K C V : Type} [DecidableEq C] (l : Loader K C V) (key : K) :
    Nat × Loader K C V :=
  let r := getCurrentBatch l
  let bid := r.1
  let l1 := r.2
  let cacheKey := l1.cacheKeyFn key
  match l1.cacheMap with
  | some cm =>
    match assocLookup cm cacheKey with
    | some cachedPid =>
      let newPid := l1.promises.length
      (newPid,
       { l1 with
          promises := l1.promises ++ [.pending]
          batches := updateAt l1.batches bid (fun b =>
            { b with cacheHits := some ((b.cacheHits.getD []) ++ [(newPid, cachedPid)]) }) })
    | none => loadMiss l1 bid key cacheKey
  | none => loadMiss l1 bid key cacheKey

/-- Source `load`: throws a `TypeError` synchronously when the key is the
absence sentinel (`null` or `undefined`, modelled as `none`); otherwise
returns the promise id of `loadK`. -/
def load {K C V : Type} [DecidableEq C] (l : Loader K C V) (key : Option K) :
    Except String (Nat × Loader K C V) :=
  match key with
  | none => .error "The loader.load() function must be called with a value"
  | some k => .ok (loadK l k)

/-- Source `clear`: delete the cache entry for the key's cache key, if caching
is enabled. -/
def clear {K C V : Type} [DecidableEq C] (l : Loader K C V) (key : K) :
    Loader K C V :=
  match l.cacheMap with
  | some cm => { l with cacheMap := some (assocDelete cm (l.cacheKeyFn key)) }
  | none => l

/-- Source `clearAll`: empty the cache, if caching is enabled. -/
def clearAll {K C V : Type} (l : Loader K C V) : Loader K C V :=
  match l.cacheMap with
  | some _ => { l with cacheMap := some [] }
  | none => l

/-- Source `prime`: when caching is enabled and the key is absent from the
cache, store an already-settled promise for it (rejected when the primed
value is an `Error` instance, resolved otherwise); a no-op when the key
is already cached or caching is disabled. -/
def prime {K C V : Type} [DecidableEq C] (l : Loader K C V) (key : K)
    (value : BatchValue V) : Loader K C V :=
  match l.cacheMap with
  | none => l
  | some cm =>
    let ck := l.cacheKeyFn key
    match assocLookup cm ck with
    | some _ => l
    | none =>
      let pid := l.promises.length
      let st : PState V := match value with
        | .err e => .settled (.rejected e)
        | .val v => .settled (.resolved v)
      { l with promises := l.promises ++ [st], cacheMap := some (assocSet cm ck pid) }

/-- Source `resolveCacheHits`, on the promise arena: run every queued cache-hit
notification of the batch, resolving each notification's promise with its
cached promise. -/
def resolveCacheHitsPs {K V : Type} (ps : List (PState V)) (b : Batch K) :
    List (PState V) :=
  match b.cacheHits with
  | none => ps
  | some hs => hs.foldl (fun ps pc => linkPid ps pc.1 pc.2) ps

/-- The positional settle loop of `dispatchBatch`: walk callbacks and
response values together; an `Error` value rejects its callback's
promise, any other value resolves it. (The source iterates over callback
indices and reads `values[i]`; the two agree because keys, callbacks and
values all have the same length at this point.) -/
def settleAll {V : Type} : List (PState V) → List Nat → List (BatchValue V) →
    List (PState V)
  | ps, [], _ => ps
  | ps, _, [] => ps
  | ps, pid :: cs, w :: ws =>
    settleAll
      (match w with
       | .err e => settlePid ps pid (.rejected e)
       | .val v => settlePid ps pid (.resolved v)) cs ws

/-- Static part of the source's "did not return a Promise" message. -/
def notPromiseMsg : String :=
  "the function did not return a Promise"

/-- Static part of the source's "did not return a Promise of an Array"
message. -/
def notArrayMsg : String :=
  "the function did not return a Promise of an Array"

/-- Static part of the source's length-mismatch message. -/
def lengthMismatchMsg : String :=
  "the function did not return a Promise of an Array of the same length as the Array of keys"

/-- Source `failedDispatch`: run all queued cache-hit notifications, then, for
each key position in order, clear the key's cache entry and reject its
callback's promise with the dispatch-level error. -/
def failedDispatch {K C V : Type} [DecidableEq C] (l : Loader K C V)
    (b : Batch K) (e : JsError) : Loader K C V :=
  let l1 := { l with promises := resolveCacheHitsPs l.promises b }
  (b.keys.zip b.callbacks).foldl
    (fun acc kc =>
      let acc1 := clear acc kc.1
      { acc1 with promises := settlePid acc1.promises kc.2 (.rejected e) }) l1

/-- Source `dispatchBatch`: mark the batch dispatched; with zero keys, run the
cache-hit notifications and stop (no backend call). Otherwise invoke the
backend with the batch's keys (logged in `backendCalls`); a non-thenable
return, a rejection, a non-array-like resolution or a length mismatch is
a dispatch-level failure; otherwise run the cache-hit notifications and
settle every callback positionally from the response. -/
def dispatchBatch {K C V : Type} [DecidableEq C]
    (backend : List K → BackendResult V) (l : Loader K C V) (bid : Nat) :
    Loader K C V :=
  let l1 : Loader K C V :=
    { l with batches := updateAt l.batches bid (fun b => { b with hasDispatched := true }) }
  match l1.batches.get? bid with
  | none => l1
  | some b =>
    if b.keys.isEmpty then
      { l1 with promises := resolveCacheHitsPs l1.promises b }
    else
      let l2 : Loader K C V := { l1 with backendCalls := l1.backendCalls ++ [b.keys] }
      match backend b.keys with
      | .notThenable => failedDispatch l2 b (.typeError notPromiseMsg)
      | .rejects e => failedDispatch l2 b e
      | .resolvesNonArray => failedDispatch l2 b (.typeError notArrayMsg)
      | .resolvesArray values =>
        if values.length = b.keys.length then
          let l3 : Loader K C V := { l2 with promises := resolveCacheHitsPs l2.promises b }
          { l3 with promises := settleAll l3.promises b.callbacks values }
        else failedDispatch l2 b (.typeError lengthMismatchMsg)

/-- Run the scheduled dispatch callbacks of the current tick: empty the
queue and dispatch each queued batch in scheduling order. -/
def runScheduled {K C V : Type} [DecidableEq C]
    (backend : List K → BackendResult V) (l : Loader K C V) : Loader K C V :=
  l.pendingDispatches.foldl (dispatchBatch backend)
    { l with pendingDispatches := [] }

/-! ### loadMany and promise combinators -/

/-- The `keys` argument of `loadMany` as JavaScript receives it: either
not array-like (fails the `isArrayLike` test) or an array of possibly
null/undefined keys. -/
inductive JsArrayArg (K : Type) where
  | notArrayLike
  | arrayLike (elems : List (Option K))

/-- The body of `loadMany`'s loop: issue `load` for every element in
order, collecting the promise ids; a synchronous throw from `load` (a
null key) propagates. -/
def loadManyGo {K C V : Type} [DecidableEq C] (l : Loader K C V) :
    List (Option K) → Except String (List Nat × Loader K C V)
  | [] => .ok ([], l)
  | k :: ks =>
    match load l k with
    | .error e => .error e
    | .ok (pid, l1) =>
      match loadManyGo l1 ks with
      | .error e => .error e
      | .ok (pids, l2) => .ok (pid :: pids, l2)

/-- Source `loadMany`: throws a `TypeError` synchronously when the argument is
not array-like; otherwise issues `load` for every key in order and
returns the promise ids whose `.catch`ed combination `Promise.all`
resolves. -/
def loadMany {K C V : Type} [DecidableEq C] (l : Loader K C V)
    (arg : JsArrayArg K) : Except String (List Nat × Loader K C V) :=
  match arg with
  | .notArrayLike =>
    .error "The loader.loadMany() function must be called with Array of keys"
  | .arrayLike elems => loadManyGo l elems

/-- Models `.catch(error => error)`: a rejection becomes a resolution carrying
the error as its value. -/
def catchToValue {V : Type} : Outcome V → Outcome (BatchValue V)
  | .resolved v => .resolved (.val v)
  | .rejected e => .resolved (.err e)

/-- The first settled rejection among a list of possibly-pending
outcomes (`Promise.all` rejects with it; list order stands in for the
real-time order in which rejections are observed). -/
def firstRejection {A : Type} : List (Option (Outcome A)) → Option JsError
  | [] => none
  | some (.rejected e) :: _ => some e
  | _ :: rest => firstRejection rest

/-- All inputs settled resolved: the list of their values. -/
def allResolved {A : Type} : List (Option (Outcome A)) → Option (List A)
  | [] => some []
  | some (.resolved v) :: rest => (allResolved rest).map (fun vs => v :: vs)
  | _ :: _ => none

/-- Models `Promise.all`: rejected once any input rejects, resolved with the
value list once all inputs resolve, pending otherwise. -/
def promiseAll {A : Type} (os : List (Option (Outcome A))) :
    Option (Outcome (List A)) :=
  match firstRejection os with
  | some e => some (.rejected e)
  | none =>
    match allResolved os with
    | some vs => some (.resolved vs)
    | none => none

/-- The outcome of the future `loadMany` returns, given the promise
arena: `Promise.all` over the `.catch(error => error)` of each issued
`load`'s promise. -/
def loadManyOutcome {V : Type} (ps : List (PState V)) (pids : List Nat) :
    Option (Outcome (List (BatchValue V))) :=
  promiseAll (pids.map (fun pid => (outcomeOf ps pid).map catchToValue))

/-- A settled `load` outcome as the value-or-Error element `loadMany`
exposes at that key's position. -/
def outcomeToVE {V : Type} : Outcome V → BatchValue V
  | .resolved v => .val v
  | .rejected e => .err e

/-! ### Derived state observations -/

/-- All keys currently recorded across the batch arena, in batch order. -/
def allKeys {K C V : Type} (l : Loader K C V) : List K :=
  (l.batches.map (fun b => b.keys)).flatten

/-- Whether `load` of this key would take the cache-hit path in this
state. -/
def isCacheHit {K C V : Type} [DecidableEq C] (l : Loader K C V) (key : K) : Bool :=
  match l.cacheMap with
  | some cm => (assocLookup cm (l.cacheKeyFn key)).isSome
  | none => false

/-- The dispatch-level error `dispatchBatch` derives from a backend
behaviour, given the batch's key count: `none` when the behaviour is a
well-shaped resolution. -/
def dispatchErrOf {V : Type} (r : BackendResult V) (n : Nat) : Option JsError :=
  match r with
  | .notThenable => some (.typeError notPromiseMsg)
  | .rejects e => some e
  | .resolvesNonArray => some (.typeError notArrayMsg)
  | .resolvesArray vs =>
    if vs.length = n then none else some (.typeError lengthMismatchMsg)

/-- The outcome the settle loop assigns for a response value: `Error`
values reject, all others resolve. -/
def settleOutcome {V : Type} : BatchValue V → Outcome V
  | .val v => .resolved v
  | .err e => .rejected e

/-- Whether a model operation threw synchronously. -/
def isThrow {α : Type} : Except String α → Bool
  | .error _ => true
  | .ok _ => false

/-- Sequentially reject a list of promises with one error (the promise
part of `failedDispatch`'s loop). -/
def rejFold {V : Type} (ps : List (PState V)) (pids : List Nat) (e : JsError) :
    List (PState V) :=
  pids.foldl (fun ps pid => settlePid ps pid (.rejected e)) ps

/-- No cache entry for this cache key (vacuous when caching is off). -/
def noEntry {K C V : Type} [DecidableEq C] (l : Loader K C V) (c : C) : Prop :=
  ∀ cm, l.cacheMap = some cm → assocLookup cm c = none

/-- A valid `_maxBatchSize` as the validator produces it: `Infinity`
(`none`) or at least 1. -/
def validMax : Option Nat → Bool
  | none => true
  | some m => 1 ≤ m

/-! ### The constructor and its option validators

JavaScript option values are modelled just finely enough for the
dynamic checks the validators perform: function-typed options by whether
`typeof x === "function"` holds, numeric options by whether
`typeof x === "number"` holds plus an integer value, and a custom cache
store by which of its four required methods are functions. -/

/-- A value checked with `typeof x === "function"`. -/
inductive JsFun where
  | callable
  | notCallable
  deriving DecidableEq

/-- A value checked with `typeof x === "number"` (numbers are modelled as
integers). -/
inductive JsNumber where
  | num (v : Int)
  | nonNumber
  deriving DecidableEq

/-- The duck-typed capability check of a custom cache store: whether each
required method is a function. -/
structure StoreCaps where
  hasGet : Bool
  hasSet : Bool
  hasDelete : Bool
  hasClear : Bool
  deriving DecidableEq

/-- The `Options` bag as the constructor receives it; every field may be
absent (`undefined`). The `cacheMap` field distinguishes `undefined`
(absent), `null` (`some none`) and a custom store (`some (some caps)`). -/
structure OptionsJs where
  batch : Option Bool
  maxBatchSize : Option JsNumber
  batchScheduleFn : Option JsFun
  cache : Option Bool
  cacheKeyFn : Option JsFun
  cacheMap : Option (Option StoreCaps)

/-- A validated max batch size: `Infinity` or a number. -/
inductive MaxSize where
  | inf
  | num (v : Int)
  deriving DecidableEq

/-- The validated cache map: a fresh `Map` or the caller's store;
`none` when caching is disabled or the caller passed `null`. -/
inductive CacheKind where
  | freshMap
  | custom (caps : StoreCaps)
  deriving DecidableEq

/-- The check `!options || options.batch !== false`. -/
def shouldBatchOf : Option OptionsJs → Bool
  | none => true
  | some o => o.batch ≠ some false

/-- The check `!options || options.cache !== false`. -/
def shouldCacheOf : Option OptionsJs → Bool
  | none => true
  | some o => o.cache ≠ some false

/-- Source `getValidMaxBatchSize`: 1 when batching is disabled; otherwise
`Infinity` when absent; a `TypeError` when not a number or below 1. -/
def getValidMaxBatchSize (options : Option OptionsJs) : Except String MaxSize :=
  if !(shouldBatchOf options) then .ok (.num 1)
  else
    match options with
    | none => .ok .inf
    | some o =>
      match o.maxBatchSize with
      | none => .ok .inf
      | some .nonNumber => .error "maxBatchSize must be a positive number"
      | some (.num v) =>
        if v < 1 then .error "maxBatchSize must be a positive number"
        else .ok (.num v)

/-- Source `getValidBatchScheduleFn`: the default `enqueuePostPromiseJob` when
absent; a `TypeError` when present but not callable. -/
def getValidBatchScheduleFn (options : Option OptionsJs) : Except String JsFun :=
  match options with
  | none => .ok .callable
  | some o =>
    match o.batchScheduleFn with
    | none => .ok .callable
    | some .callable => .ok .callable
    | some .notCallable => .error "batchScheduleFn must be a function"

/-- Source `getValidCacheKeyFn`: the identity when absent; a `TypeError` when
present but not callable. -/
def getValidCacheKeyFn (options : Option OptionsJs) : Except String JsFun :=
  match options with
  | none => .ok .callable
  | some o =>
    match o.cacheKeyFn with
    | none => .ok .callable
    | some .callable => .ok .callable
    | some .notCallable => .error "cacheKeyFn must be a function"

/-- Source `getValidCacheMap`: `null` when caching is disabled; a fresh `Map`
when absent; `null` stays `null`; a custom store must have all four
methods or a `TypeError` is thrown. -/
def getValidCacheMap (options : Option OptionsJs) : Except String (Option CacheKind) :=
  if !(shouldCacheOf options) then .ok none
  else
    match options with
    | none => .ok (some .freshMap)
    | some o =>
      match o.cacheMap with
      | none => .ok (some .freshMap)
      | some none => .ok none
      | some (some caps) =>
        if caps.hasGet && caps.hasSet && caps.hasDelete && caps.hasClear
        then .ok (some (.custom caps))
        else .error "Custom cacheMap missing methods"

/-- The constructor's validated configuration. -/
structure CtorResult where
  batchScheduleFn : JsFun
  maxBatchSize : MaxSize
  cacheKeyFn : JsFun
  cacheMap : Option CacheKind
  deriving DecidableEq

/-- The `DataLoader` constructor: reject a non-callable `batchLoadFn`,
then run the four option validators in source order; any validator's
`TypeError` propagates as a synchronous throw. -/
def dataLoaderCtor (batchLoadFn : JsFun) (options : Option OptionsJs) :
    Except String CtorResult :=
  match batchLoadFn with
  | .notCallable =>
    .error "DataLoader must be constructed with a function which accepts Array of keys and returns Promise of Array of values"
  | .callable =>
    match getValidBatchScheduleFn options with
    | .error e => .error e
    | .ok sf =>
      match getValidMaxBatchSize options with
      | .error e => .error e
      | .ok m =>
        match getValidCacheKeyFn options with
        | .error e => .error e
        | .ok kf =>
          match getValidCacheMap options with
          | .error e => .error e
          | .ok cm => .ok ⟨sf, m, kf, cm⟩

/-! ### Concrete load sequences (for batch-size accounting) -/

/-- Issue `load` for each key in order, keeping only the state. -/
def loadAll {K C V : Type} [DecidableEq C] (l : Loader K C V) (ks : List K) :
    Loader K C V :=
  ks.foldl (fun acc k => (loadK acc k).2) l

/-- The state after `n` same-tick loads of the distinct keys
`0, 1, ..., n-1` on a fresh caching loader with max batch size `m`. -/
def afterLoads (m n : Nat) : Loader Nat Nat Unit :=
  loadAll (mkLoader (some m) id true) (List.range n)

/-- The state invariant after `j ≥ 1` same-tick loads of the distinct
keys `0..j-1` on a fresh caching loader with max batch size `m`: the
batch arena holds `(j-1)/m + 1` undispatched batches of between 1 and
`m` keys, the current batch is the last one with `(j-1) % m + 1` keys,
every created batch is scheduled exactly once, the cache maps exactly the
loaded keys, and no backend call has happened. -/
def loadedInv (m j : Nat) (A : Loader Nat Nat Unit) : Prop :=
  A.maxBatchSize = some m ∧
  A.cacheKeyFn = id ∧
  A.batches.length = (j - 1) / m + 1 ∧
  A.batch = some ((j - 1) / m) ∧
  A.pendingDispatches = List.range A.batches.length ∧
  (∀ i b, A.batches.get? i = some b →
    b.hasDispatched = false ∧ b.cacheHits = none ∧
    1 ≤ b.keys.length ∧ b.keys.length ≤ m) ∧
  (∃ bl, A.batches.get? ((j - 1) / m) = some bl ∧
    bl.keys.length = (j - 1) % m + 1) ∧
  (∃ cm, A.cacheMap = some cm ∧ cm.map Prod.fst = List.range j) ∧
  A.backendCalls = [] ∧
  A.promises.length = j

/-! ### Helper lemmas: `updateAt` -/

theorem updateAt_length {α : Type} (xs : List α) (i : Nat) (f : α → α) :
    (updateAt xs i f).length = xs.length := by
  induction xs generalizing i with
  | nil => rfl
  | cons x rest ih =>
    cases i with
    | zero => rfl
    | succ n => simp [updateAt, ih]

theorem updateAt_get?_self {α : Type} (xs : List α) (i : Nat) (f : α → α) :
    (updateAt xs i f).get? i = (xs.get? i).map f := by
  induction xs generalizing i with
  | nil => rfl
  | cons x rest ih =>
    cases i with
    | zero => rfl
    | succ n => simpa [updateAt] using ih n

theorem updateAt_get?_ne {α : Type} (xs : List α) (i j : Nat) (f : α → α)
    (h : j ≠ i) : (updateAt xs i f).get? j = xs.get? j := by
  induction xs generalizing i j with
  | nil => rfl
  | cons x rest ih =>
    cases i with
    | zero =>
      cases j with
      | zero => exact absurd rfl h
      | succ m => rfl
    | succ n =>
      cases j with
      | zero => rfl
      | succ m => simpa [updateAt] using ih n m (by omega)

/-! ### Helper lemmas: promise arena -/

theorem settlePid_get?_pending {V : Type} (ps : List (PState V)) (pid : Nat)
    (o : Outcome V) (h : ps.get? pid = some .pending) :
    (settlePid ps pid o).get? pid = some (.settled o) := by
  unfold settlePid
  rw [updateAt_get?_self, h]
  rfl

theorem settlePid_get?_ne {V : Type} (ps : List (PState V)) (pid q : Nat)
    (o : Outcome V) (h : q ≠ pid) :
    (settlePid ps pid o).get? q = ps.get? q :=
  updateAt_get?_ne ps pid q _ h

theorem settlePid_get?_settled {V : Type} (ps : List (PState V)) (pid q : Nat)
    (o o' : Outcome V) (h : ps.get? q = some (.settled o')) :
    (settlePid ps pid o).get? q = some (.settled o') := by
  by_cases hq : q = pid
  · subst hq
    unfold settlePid
    rw [updateAt_get?_self, h]
    rfl
  · rw [settlePid_get?_ne ps pid q o hq, h]

theorem settlePid_get?_linked {V : Type} (ps : List (PState V)) (pid q t : Nat)
    (o : Outcome V) (h : ps.get? q = some (.linked t)) :
    (settlePid ps pid o).get? q = some (.linked t) := by
  by_cases hq : q = pid
  · subst hq
    unfold settlePid
    rw [updateAt_get?_self, h]
    rfl
  · rw [settlePid_get?_ne ps pid q o hq, h]

theorem linkPid_get?_pending {V : Type} (ps : List (PState V)) (pid t : Nat)
    (h : ps.get? pid = some .pending) :
    (linkPid ps pid t).get? pid = some (.linked t) := by
  unfold linkPid
  rw [updateAt_get?_self, h]
  rfl

theorem linkPid_get?_ne {V : Type} (ps : List (PState V)) (pid q t : Nat)
    (h : q ≠ pid) : (linkPid ps pid t).get? q = ps.get? q :=
  updateAt_get?_ne ps pid q _ h

theorem linkPid_get?_linked {V : Type} (ps : List (PState V)) (pid q t c : Nat)
    (h : ps.get? q = some (.linked c)) :
    (linkPid ps pid t).get? q = some (.linked c) := by
  by_cases hq : q = pid
  · subst hq
    unfold linkPid
    rw [updateAt_get?_self, h]
    rfl
  · rw [linkPid_get?_ne ps pid q t hq, h]

theorem linkPid_get?_settled {V : Type} (ps : List (PState V)) (pid q t : Nat)
    (o : Outcome V) (h : ps.get? q = some (.settled o)) :
    (linkPid ps pid t).get? q = some (.settled o) := by
  by_cases hq : q = pid
  · subst hq
    unfold linkPid
    rw [updateAt_get?_self, h]
    rfl
  · rw [linkPid_get?_ne ps pid q t hq, h]

/-- The cache-hit fold preserves entries adopted earlier. -/
theorem linkFold_get?_linked {V : Type} (hs : List (Nat × Nat))
    (ps : List (PState V)) (q c : Nat) (h : ps.get? q = some (.linked c)) :
    (hs.foldl (fun ps pc => linkPid ps pc.1 pc.2) ps).get? q = some (.linked c) := by
  induction hs generalizing ps with
  | nil => exact h
  | cons pc rest ih => exact ih _ (linkPid_get?_linked _ _ _ _ _ h)

/-- The cache-hit fold preserves settled entries. -/
theorem linkFold_get?_settled {V : Type} (hs : List (Nat × Nat))
    (ps : List (PState V)) (q : Nat) (o : Outcome V)
    (h : ps.get? q = some (.settled o)) :
    (hs.foldl (fun ps pc => linkPid ps pc.1 pc.2) ps).get? q = some (.settled o) := by
  induction hs generalizing ps with
  | nil => exact h
  | cons pc rest ih => exact ih _ (linkPid_get?_settled _ _ _ _ _ h)

/-- The cache-hit fold leaves promises outside its targets untouched. -/
theorem linkFold_get?_notMem {V : Type} (hs : List (Nat × Nat))
    (ps : List (PState V)) (q : Nat) (h : ∀ pc ∈ hs, pc.1 ≠ q) :
    (hs.foldl (fun ps pc => linkPid ps pc.1 pc.2) ps).get? q = ps.get? q := by
  induction hs generalizing ps with
  | nil => rfl
  | cons pc rest ih =>
    rw [List.foldl_cons, ih _ (fun x hx => h x (List.mem_cons_of_mem pc hx)),
      linkPid_get?_ne ps pc.1 q pc.2 (fun he => h pc (List.mem_cons_self pc rest) he.symm)]

/-- Running the queued cache-hit notifications adopts each notification's
cached promise into its fresh promise. -/
theorem linkFold_run {V : Type} (hs : List (Nat × Nat)) (ps : List (PState V))
    (hnd : (hs.map Prod.fst).Nodup)
    (hp : ∀ pc ∈ hs, ps.get? pc.1 = some .pending) :
    ∀ pc ∈ hs,
      (hs.foldl (fun ps pc => linkPid ps pc.1 pc.2) ps).get? pc.1 = some (.linked pc.2) := by
  induction hs generalizing ps with
  | nil => intro pc hpc; cases hpc
  | cons hd rest ih =>
    intro pc hpc
    rw [List.map_cons, List.nodup_cons] at hnd
    rcases List.mem_cons.mp hpc with hEq | hMem
    · subst hEq
      rw [List.foldl_cons]
      exact linkFold_get?_linked rest _ pc.1 pc.2
        (linkPid_get?_pending ps pc.1 pc.2 (hp pc (List.mem_cons_self _ _)))
    · rw [List.foldl_cons]
      refine ih _ hnd.2 ?_ pc hMem
      intro x hx
      rw [linkPid_get?_ne ps hd.1 x.1 hd.2 ?_]
      · exact hp x (List.mem_cons_of_mem hd hx)
      · intro he
        exact hnd.1 (he ▸ List.mem_map_of_mem Prod.fst hx)

theorem resolveCacheHitsPs_get?_linked {K V : Type} (ps : List (PState V))
    (b : Batch K) (q c : Nat) (h : ps.get? q = some (.linked c)) :
    (resolveCacheHitsPs ps b).get? q = some (.linked c) := by
  unfold resolveCacheHitsPs
  cases b.cacheHits with
  | none => exact h
  | some hs => exact linkFold_get?_linked hs ps q c h

theorem resolveCacheHitsPs_get?_settled {K V : Type} (ps : List (PState V))
    (b : Batch K) (q : Nat) (o : Outcome V)
    (h : ps.get? q = some (.settled o)) :
    (resolveCacheHitsPs ps b).get? q = some (.settled o) := by
  unfold resolveCacheHitsPs
  cases b.cacheHits with
  | none => exact h
  | some hs => exact linkFold_get?_settled hs ps q o h

/-! ### Helper lemmas: the settle loop -/

theorem settleAll_get?_notMem {V : Type} (cs : List Nat)
    (ws : List (BatchValue V)) (ps : List (PState V)) (q : Nat)
    (h : q ∉ cs) : (settleAll ps cs ws).get? q = ps.get? q := by
  induction cs generalizing ps ws with
  | nil => cases ws <;> rfl
  | cons pid cs' ih =>
    cases ws with
    | nil => rfl
    | cons w ws' =>
      rw [List.mem_cons, not_or] at h
      cases w with
      | err e =>
        exact (ih _ _ h.2).trans (settlePid_get?_ne ps pid q _ h.1)
      | val v =>
        exact (ih _ _ h.2).trans (settlePid_get?_ne ps pid q _ h.1)

theorem settleAll_get?_linked {V : Type} (cs : List Nat)
    (ws : List (BatchValue V)) (ps : List (PState V)) (q c : Nat)
    (h : ps.get? q = some (.linked c)) :
    (settleAll ps cs ws).get? q = some (.linked c) := by
  induction cs generalizing ps ws with
  | nil => cases ws <;> exact h
  | cons pid cs' ih =>
    cases ws with
    | nil => exact h
    | cons w ws' =>
      cases w with
      | err e => exact ih _ _ (settlePid_get?_linked ps pid q c _ h)
      | val v => exact ih _ _ (settlePid_get?_linked ps pid q c _ h)

theorem settleAll_get?_settled {V : Type} (cs : List Nat)
    (ws : List (BatchValue V)) (ps : List (PState V)) (q : Nat) (o : Outcome V)
    (h : ps.get? q = some (.settled o)) :
    (settleAll ps cs ws).get? q = some (.settled o) := by
  induction cs generalizing ps ws with
  | nil => cases ws <;> exact h
  | cons pid cs' ih =>
    cases ws with
    | nil => exact h
    | cons w ws' =>
      cases w with
      | err e => exact ih _ _ (settlePid_get?_settled ps pid q _ o h)
      | val v => exact ih _ _ (settlePid_get?_settled ps pid q _ o h)

/-- The settle loop settles callback `i` with exactly the outcome of
response value `i`, when the callbacks are distinct pending promises. -/
theorem settleAll_run {V : Type} (cs : List Nat) (ws : List (BatchValue V))
    (ps : List (PState V)) (hnd : cs.Nodup)
    (hp : ∀ pid ∈ cs, ps.get? pid = some .pending)
    (i pid : Nat) (w : BatchValue V)
    (hc : cs.get? i = some pid) (hw : ws.get? i = some w) :
    (settleAll ps cs ws).get? pid = some (.settled (settleOutcome w)) := by
  induction cs generalizing ps ws i with
  | nil => cases hc
  | cons pid0 cs' ih =>
    cases ws with
    | nil => cases hw
    | cons w0 ws' =>
      rw [List.nodup_cons] at hnd
      cases i with
      | zero =>
        cases hc
        cases hw
        have hset : (match w with
            | .err e => settlePid ps pid (.rejected e)
            | .val v => settlePid ps pid (.resolved v)).get? pid
            = some (.settled (settleOutcome w)) := by
          cases w with
          | err e => exact settlePid_get?_pending ps pid _ (hp pid (List.mem_cons_self _ _))
          | val v => exact settlePid_get?_pending ps pid _ (hp pid (List.mem_cons_self _ _))
        show (settleAll _ cs' ws').get? pid = _
        rw [settleAll_get?_notMem cs' ws' _ pid hnd.1, hset]
      | succ j =>
        have hmem : pid ∈ cs' := List.get?_mem hc
        have hne : pid ≠ pid0 := fun he => hnd.1 (he ▸ hmem)
        show (settleAll _ cs' ws').get? pid = _
        refine ih _ _ hnd.2 ?_ j hc hw
        intro x hx
        cases w0 with
        | err e =>
          rw [settlePid_get?_ne ps pid0 x _ ?_]
          · exact hp x (List.mem_cons_of_mem pid0 hx)
          · intro he
            exact hnd.1 (he ▸ hx)
        | val v =>
          rw [settlePid_get?_ne ps pid0 x _ ?_]
          · exact hp x (List.mem_cons_of_mem pid0 hx)
          · intro he
            exact hnd.1 (he ▸ hx)

/-! ### Helper lemmas: association lists and `clear` -/

theorem assocLookup_assocDelete_self {C : Type} [DecidableEq C]
    (cm : List (C × Nat)) (c : C) :
    assocLookup (assocDelete cm c) c = none := by
  induction cm with
  | nil => rfl
  | cons p rest ih =>
    by_cases h : p.1 = c
    · simpa [assocDelete, List.filter, h] using ih
    · simpa [assocDelete, List.filter, h, assocLookup] using ih

theorem assocLookup_assocDelete_none {C : Type} [DecidableEq C]
    (cm : List (C × Nat)) (c c' : C) (h : assocLookup cm c' = none) :
    assocLookup (assocDelete cm c) c' = none := by
  induction cm with
  | nil => rfl
  | cons p rest ih =>
    rw [assocLookup] at h
    by_cases hp : p.1 = c'
    · simp [hp] at h
    · simp only [hp, if_false] at h
      by_cases hc : p.1 = c
      · simpa [assocDelete, List.filter, hc] using ih h
      · simpa [assocDelete, List.filter, hc, assocLookup, hp] using ih h

theorem clear_promises {K C V : Type} [DecidableEq C] (l : Loader K C V) (k : K) :
    (clear l k).promises = l.promises := by
  unfold clear
  cases l.cacheMap <;> rfl

theorem clear_batches {K C V : Type} [DecidableEq C] (l : Loader K C V) (k : K) :
    (clear l k).batches = l.batches := by
  unfold clear
  cases l.cacheMap <;> rfl

theorem clear_cacheKeyFn {K C V : Type} [DecidableEq C] (l : Loader K C V) (k : K) :
    (clear l k).cacheKeyFn = l.cacheKeyFn := by
  unfold clear
  cases l.cacheMap <;> rfl

theorem clear_cacheMap {K C V : Type} [DecidableEq C] (l : Loader K C V) (k : K) :
    (clear l k).cacheMap
      = l.cacheMap.map (fun cm => assocDelete cm (l.cacheKeyFn k)) := by
  unfold clear
  cases h : l.cacheMap <;> simp [h]

theorem clear_noEntry_self {K C V : Type} [DecidableEq C] (l : Loader K C V)
    (k : K) : noEntry (clear l k) (l.cacheKeyFn k) := by
  intro cm hcm
  rw [clear_cacheMap] at hcm
  cases h : l.cacheMap with
  | none => rw [h] at hcm; cases hcm
  | some cm0 =>
    rw [h] at hcm
    cases hcm
    exact assocLookup_assocDelete_self cm0 _

theorem clear_noEntry_mono {K C V : Type} [DecidableEq C] (l : Loader K C V)
    (k : K) (c : C) (h : noEntry l c) : noEntry (clear l k) c := by
  intro cm hcm
  rw [clear_cacheMap] at hcm
  cases h0 : l.cacheMap with
  | none => rw [h0] at hcm; cases hcm
  | some cm0 =>
    rw [h0] at hcm
    cases hcm
    exact assocLookup_assocDelete_none cm0 _ c (h cm0 h0)

/-! ### Helper lemmas: `rejFold` and the `failedDispatch` loop -/

theorem rejFold_get?_linked {V : Type} (pids : List Nat) (ps : List (PState V))
    (e : JsError) (q c : Nat) (h : ps.get? q = some (.linked c)) :
    (rejFold ps pids e).get? q = some (.linked c) := by
  induction pids generalizing ps with
  | nil => exact h
  | cons pid rest ih => exact ih _ (settlePid_get?_linked ps pid q c _ h)

theorem rejFold_get?_settled {V : Type} (pids : List Nat) (ps : List (PState V))
    (e : JsError) (q : Nat) (o : Outcome V)
    (h : ps.get? q = some (.settled o)) :
    (rejFold ps pids e).get? q = some (.settled o) := by
  induction pids generalizing ps with
  | nil => exact h
  | cons pid rest ih => exact ih _ (settlePid_get?_settled ps pid q _ o h)

theorem rejFold_get?_notMem {V : Type} (pids : List Nat) (ps : List (PState V))
    (e : JsError) (q : Nat) (h : q ∉ pids) :
    (rejFold ps pids e).get? q = ps.get? q := by
  induction pids generalizing ps with
  | nil => rfl
  | cons pid rest ih =>
    rw [List.mem_cons, not_or] at h
    exact (ih _ h.2).trans (settlePid_get?_ne ps pid q _ h.1)

/-- Rejecting a list of distinct pending promises rejects each of them. -/
theorem rejFold_run {V : Type} (pids : List Nat) (ps : List (PState V))
    (e : JsError) (hnd : pids.Nodup)
    (hp : ∀ pid ∈ pids, ps.get? pid = some .pending) :
    ∀ pid ∈ pids, (rejFold ps pids e).get? pid = some (.settled (.rejected e)) := by
  induction pids generalizing ps with
  | nil => intro pid hpid; cases hpid
  | cons pid0 rest ih =>
    rw [List.nodup_cons] at hnd
    intro pid hpid
    rcases List.mem_cons.mp hpid with hEq | hMem
    · subst hEq
      show (rejFold (settlePid ps pid (.rejected e)) rest e).get? pid = _
      rw [rejFold_get?_notMem rest _ e pid hnd.1,
        settlePid_get?_pending ps pid _ (hp pid (List.mem_cons_self _ _))]
    · show (rejFold (settlePid ps pid0 (.rejected e)) rest e).get? pid = _
      refine ih _ hnd.2 ?_ pid hMem
      intro x hx
      rw [settlePid_get?_ne ps pid0 x _ (fun he => hnd.1 (he ▸ hx))]
      exact hp x (List.mem_cons_of_mem pid0 hx)

theorem fdFoldAux_promises {K C V : Type} [DecidableEq C] (e : JsError)
    (pairs : List (K × Nat)) (l : Loader K C V) :
    (pairs.foldl (fun acc kc =>
      let acc1 := clear acc kc.1
      { acc1 with promises := settlePid acc1.promises kc.2 (.rejected e) }) l).promises
      = rejFold l.promises (pairs.map Prod.snd) e := by
  induction pairs generalizing l with
  | nil => rfl
  | cons kc rest ih =>
    rw [List.foldl_cons, ih]
    simp only [rejFold, List.map_cons, List.foldl_cons, clear_promises]

theorem fdFoldAux_batches {K C V : Type} [DecidableEq C] (e : JsError)
    (pairs : List (K × Nat)) (l : Loader K C V) :
    (pairs.foldl (fun acc kc =>
      let acc1 := clear acc kc.1
      { acc1 with promises := settlePid acc1.promises kc.2 (.rejected e) }) l).batches
      = l.batches := by
  induction pairs generalizing l with
  | nil => rfl
  | cons kc rest ih =>
    rw [List.foldl_cons, ih]
    simp only [clear_batches]

theorem fdFoldAux_cacheKeyFn {K C V : Type} [DecidableEq C] (e : JsError)
    (pairs : List (K × Nat)) (l : Loader K C V) :
    (pairs.foldl (fun acc kc =>
      let acc1 := clear acc kc.1
      { acc1 with promises := settlePid acc1.promises kc.2 (.rejected e) }) l).cacheKeyFn
      = l.cacheKeyFn := by
  induction pairs generalizing l with
  | nil => rfl
  | cons kc rest ih =>
    rw [List.foldl_cons, ih]
    simp only [clear_cacheKeyFn]

theorem fdFoldAux_noEntry_mono {K C V : Type} [DecidableEq C] (e : JsError)
    (pairs : List (K × Nat)) (l : Loader K C V) (c : C) (h : noEntry l c) :
    noEntry (pairs.foldl (fun acc kc =>
      let acc1 := clear acc kc.1
      { acc1 with promises := settlePid acc1.promises kc.2 (.rejected e) }) l) c := by
  induction pairs generalizing l with
  | nil => exact h
  | cons kc rest ih =>
    rw [List.foldl_cons]
    refine ih _ ?_
    intro cm hcm
    exact clear_noEntry_mono l kc.1 c h cm hcm

/-- The `failedDispatch` loop clears the cache entry of every processed
key. -/
theorem fdFoldAux_clears {K C V : Type} [DecidableEq C] (e : JsError)
    (pairs : List (K × Nat)) (l : Loader K C V) :
    ∀ kc ∈ pairs,
      noEntry (pairs.foldl (fun acc kc =>
        let acc1 := clear acc kc.1
        { acc1 with promises := settlePid acc1.promises kc.2 (.rejected e) }) l)
        (l.cacheKeyFn kc.1) := by
  induction pairs generalizing l with
  | nil => intro kc hkc; cases hkc
  | cons kc0 rest ih =>
    intro kc hkc
    rcases List.mem_cons.mp hkc with hEq | hMem
    · subst hEq
      rw [List.foldl_cons]
      refine fdFoldAux_noEntry_mono e rest _ _ ?_
      intro cm hcm
      exact clear_noEntry_self l kc.1 cm hcm
    · rw [List.foldl_cons]
      have hfn : (let acc1 := clear l kc0.1
          { acc1 with promises := settlePid acc1.promises kc0.2 (.rejected e) }).cacheKeyFn
          = l.cacheKeyFn := by
        simp only [clear_cacheKeyFn]
      have := ih (let acc1 := clear l kc0.1
          { acc1 with promises := settlePid acc1.promises kc0.2 (.rejected e) }) kc hMem
      rwa [hfn] at this

theorem resolveCacheHitsPs_get?_keep {K V : Type} (ps : List (PState V))
    (b : Batch K) (q : Nat)
    (h : ∀ hs, b.cacheHits = some hs → ∀ pc ∈ hs, pc.1 ≠ q) :
    (resolveCacheHitsPs ps b).get? q = ps.get? q := by
  unfold resolveCacheHitsPs
  cases hch : b.cacheHits with
  | none => rfl
  | some hs => exact linkFold_get?_notMem hs ps q (h hs hch)

theorem failedDispatch_promises {K C V : Type} [DecidableEq C]
    (l : Loader K C V) (b : Batch K) (e : JsError) :
    (failedDispatch l b e).promises
      = rejFold (resolveCacheHitsPs l.promises b)
          ((b.keys.zip b.callbacks).map Prod.snd) e := by
  unfold failedDispatch
  exact fdFoldAux_promises e _ _

theorem failedDispatch_batches {K C V : Type} [DecidableEq C]
    (l : Loader K C V) (b : Batch K) (e : JsError) :
    (failedDispatch l b e).batches = l.batches := by
  unfold failedDispatch
  exact fdFoldAux_batches e _ _

theorem failedDispatch_cacheKeyFn {K C V : Type} [DecidableEq C]
    (l : Loader K C V) (b : Batch K) (e : JsError) :
    (failedDispatch l b e).cacheKeyFn = l.cacheKeyFn := by
  unfold failedDispatch
  exact fdFoldAux_cacheKeyFn e _ _

/-- Lemma: `failedDispatch` leaves no cache entry for any key of the batch whose
position is matched by a callback. -/
theorem failedDispatch_clears {K C V : Type} [DecidableEq C]
    (l : Loader K C V) (b : Batch K) (e : JsError)
    (hlen : b.keys.length = b.callbacks.length) :
    ∀ k ∈ b.keys, noEntry (failedDispatch l b e) (l.cacheKeyFn k) := by
  intro k hk
  rcases List.mem_iff_get?.mp hk with ⟨i, hi⟩
  have hilt : i < b.callbacks.length := by
    rw [← hlen]
    exact (List.get?_eq_some.mp hi).1
  rcases List.get?_eq_some.mpr ⟨hilt, rfl⟩ with hpid
  have hz : (b.keys.zip b.callbacks).get? i
      = some (k, b.callbacks.get ⟨i, hilt⟩) := by
    rw [List.get?_zip_eq_some]
    exact ⟨hi, hpid⟩
  have hmem : (k, b.callbacks.get ⟨i, hilt⟩) ∈ b.keys.zip b.callbacks :=
    List.get?_mem hz
  unfold failedDispatch
  exact fdFoldAux_clears e _ _ _ hmem

/-- Claim C1: for a dispatched batch whose backend call resolves with an
array of the batch's length, the dispatcher settles the waiters
positionally: an `Error` at position `i` rejects exactly waiter `i` with
that error, and any other value resolves waiter `i` with it; each waiter
receives exactly its own position's outcome, so siblings are unaffected
by a failure marker elsewhere. The hypotheses are the reachable-state
invariants: keys and callbacks are parallel, the callbacks are distinct
pending promises, and the cache-hit notifications target other
promises. -/
theorem c1_positional_settlement {K C V : Type} [DecidableEq C]
    (backend : List K → BackendResult V) (l : Loader K C V) (bid : Nat)
    (b : Batch K) (values : List (BatchValue V))
    (hb : l.batches.get? bid = some b)
    (hne : b.keys ≠ [])
    (hres : backend b.keys = .resolvesArray values)
    (hlen : values.length = b.keys.length)
    (hnd : b.callbacks.Nodup)
    (hpend : ∀ pid ∈ b.callbacks, l.promises.get? pid = some .pending)
    (hdisj : ∀ hs, b.cacheHits = some hs → ∀ pc ∈ hs, pc.1 ∉ b.callbacks) :
    ∀ i pid w, b.callbacks.get? i = some pid → values.get? i = some w →
      (dispatchBatch backend l bid).promises.get? pid
        = some (.settled (settleOutcome w)) := by
  intro i pid w hc hw
  have hb1 : (updateAt l.batches bid (fun b => { b with hasDispatched := true })).get? bid
      = some { b with hasDispatched := true } := by
    rw [updateAt_get?_self, hb]
    rfl
  have hkeysne : b.keys.isEmpty = false := by
    cases hk : b.keys with
    | nil => exact absurd hk hne
    | cons a rest => rfl
  have hmem : pid ∈ b.callbacks := List.get?_mem hc
  unfold dispatchBatch
  simp only [hb1, hkeysne, hres, hlen, Bool.false_eq_true, if_false, if_true]
  have hpend' : ∀ q ∈ b.callbacks,
      (resolveCacheHitsPs l.promises { b with hasDispatched := true }).get? q
        = some .pending := by
    intro q hq
    rw [resolveCacheHitsPs_get?_keep]
    · exact hpend q hq
    · intro hs hhs pc hpc he
      exact hdisj hs hhs pc hpc (he ▸ hq)
  exact settleAll_run b.callbacks values _ hnd hpend' i pid w hc hw

/-- Concrete run of C1: a two-key batch whose response holds an `Error`
at position 0 and a value at position 1 rejects waiter 0 with that error
and still resolves waiter 1. -/
theorem c1_positional_settlement_witness :
    (dispatchBatch (K := Nat) (C := Nat) (V := Nat)
        (fun _ => .resolvesArray [.err (.custom 5), .val 7])
        { maxBatchSize := none, cacheKeyFn := id,
          promises := [.pending, .pending],
          batches := [⟨false, [10, 11], [0, 1], none⟩],
          batch := some 0, cacheMap := some [(10, 0), (11, 1)],
          pendingDispatches := [0], backendCalls := [] } 0).promises.get? 0
      = some (.settled (.rejected (.custom 5)))
    ∧ (dispatchBatch (K := Nat) (C := Nat) (V := Nat)
        (fun _ => .resolvesArray [.err (.custom 5), .val 7])
        { maxBatchSize := none, cacheKeyFn := id,
          promises := [.pending, .pending],
          batches := [⟨false, [10, 11], [0, 1], none⟩],
          batch := some 0, cacheMap := some [(10, 0), (11, 1)],
          pendingDispatches := [0], backendCalls := [] } 0).promises.get? 1
      = some (.settled (.resolved 7)) :=
  ⟨c1_positional_settlement (K := Nat) (C := Nat) (V := Nat)
      (fun _ => .resolvesArray [.err (.custom 5), .val 7])
      { maxBatchSize := none, cacheKeyFn := id,
        promises := [.pending, .pending],
        batches := [⟨false, [10, 11], [0, 1], none⟩],
        batch := some 0, cacheMap := some [(10, 0), (11, 1)],
        pendingDispatches := [0], backendCalls := [] } 0
      ⟨false, [10, 11], [0, 1], none⟩
      [.err (.custom 5), .val 7] rfl (by decide) rfl rfl (by decide)
      (by decide) (fun hs h => by cases h) 0 0 (.err (.custom 5)) rfl rfl,
   c1_positional_settlement (K := Nat) (C := Nat) (V := Nat)
      (fun _ => .resolvesArray [.err (.custom 5), .val 7])
      { maxBatchSize := none, cacheKeyFn := id,
        promises := [.pending, .pending],
        batches := [⟨false, [10, 11], [0, 1], none⟩],
        batch := some 0, cacheMap := some [(10, 0), (11, 1)],
        pendingDispatches := [0], backendCalls := [] } 0
      ⟨false, [10, 11], [0, 1], none⟩
      [.err (.custom 5), .val 7] rfl (by decide) rfl rfl (by decide)
      (by decide) (fun hs h => by cases h) 1 1 (.val 7) rfl rfl⟩

/-- Claim C7: every cache-hit notification queued on a batch is run on
every settlement path of `dispatchBatch` — the backend behaviour is
arbitrary here, covering the successful path, the rejected / malformed /
length-mismatched paths, and (when the batch has no keys) the zero-key
early return: in the resulting state each notification's promise has
adopted its cached promise. -/
theorem c7_cache_hits_always_run {K C V : Type} [DecidableEq C]
    (backend : List K → BackendResult V) (l : Loader K C V) (bid : Nat)
    (b : Batch K) (hs : List (Nat × Nat))
    (hb : l.batches.get? bid = some b)
    (hch : b.cacheHits = some hs)
    (hnd : (hs.map Prod.fst).Nodup)
    (hpend : ∀ pc ∈ hs, l.promises.get? pc.1 = some .pending) :
    ∀ pc ∈ hs, (dispatchBatch backend l bid).promises.get? pc.1
      = some (.linked pc.2) := by
  intro pc hpc
  have hb1 : (updateAt l.batches bid (fun b => { b with hasDispatched := true })).get? bid
      = some { b with hasDispatched := true } := by
    rw [updateAt_get?_self, hb]
    rfl
  have hrch : (resolveCacheHitsPs l.promises { b with hasDispatched := true }).get? pc.1
      = some (.linked pc.2) := by
    show (resolveCacheHitsPs l.promises b).get? pc.1 = _
    unfold resolveCacheHitsPs
    rw [hch]
    exact linkFold_run hs l.promises hnd hpend pc hpc
  unfold dispatchBatch
  simp only [hb1]
  cases hk : b.keys.isEmpty with
  | true =>
    simp only [if_true]
    exact hrch
  | false =>
    simp only [Bool.false_eq_true, if_false]
    cases hres : backend b.keys with
    | notThenable =>
      rw [failedDispatch_promises]
      exact rejFold_get?_linked _ _ _ _ _ hrch
    | rejects e =>
      rw [failedDispatch_promises]
      exact rejFold_get?_linked _ _ _ _ _ hrch
    | resolvesNonArray =>
      rw [failedDispatch_promises]
      exact rejFold_get?_linked _ _ _ _ _ hrch
    | resolvesArray values =>
      by_cases hvl : values.length = b.keys.length
      · simp only [hvl, if_true]
        exact settleAll_get?_linked _ _ _ _ _ hrch
      · simp only [hvl, if_false]
        rw [failedDispatch_promises]
        exact rejFold_get?_linked _ _ _ _ _ hrch

/-- Concrete run of C7: a batch whose backend call rejects still resolves
its queued cache-hit notification. -/
theorem c7_cache_hits_always_run_witness :
    (dispatchBatch (K := Nat) (C := Nat) (V := Nat)
        (fun _ => .rejects (.custom 3))
        { maxBatchSize := none, cacheKeyFn := id,
          promises := [.settled (.resolved 9), .pending, .pending],
          batches := [⟨false, [11], [1], some [(2, 0)]⟩],
          batch := some 0, cacheMap := some [(10, 0), (11, 1)],
          pendingDispatches := [0], backendCalls := [] } 0).promises.get? 2
      = some (.linked 0) :=
  c7_cache_hits_always_run (K := Nat) (C := Nat) (V := Nat)
    (fun _ => .rejects (.custom 3))
    { maxBatchSize := none, cacheKeyFn := id,
      promises := [.settled (.resolved 9), .pending, .pending],
      batches := [⟨false, [11], [1], some [(2, 0)]⟩],
      batch := some 0, cacheMap := some [(10, 0), (11, 1)],
      pendingDispatches := [0], backendCalls := [] } 0
    ⟨false, [11], [1], some [(2, 0)]⟩ [(2, 0)]
    rfl rfl (by decide) (by decide) (2, 0) (by decide)

/-! ### Helper lemmas: `getCurrentBatch`, `loadK`, field preservation -/

theorem batchUsable_not_dispatched {K C V : Type} (l : Loader K C V)
    (b : Batch K) (h : batchUsable l b = true) : b.hasDispatched = false := by
  unfold batchUsable at h
  rw [Bool.and_assoc, Bool.and_eq_true, Bool.not_eq_true'] at h
  exact h.1

/-- Lemma: `getCurrentBatch` either returns the current batch unchanged (when it
is usable) or appends a fresh batch, makes it current, and schedules
exactly one dispatch of it. -/
theorem getCurrentBatch_spec {K C V : Type} (l : Loader K C V) :
    (∃ bid b, l.batch = some bid ∧ l.batches.get? bid = some b ∧
       batchUsable l b = true ∧ getCurrentBatch l = (bid, l)) ∨
    getCurrentBatch l =
      (l.batches.length,
       { l with batches := l.batches ++ [⟨false, [], [], none⟩],
                batch := some l.batches.length,
                pendingDispatches := l.pendingDispatches ++ [l.batches.length] }) := by
  cases hb : l.batch with
  | none =>
    refine Or.inr ?_
    unfold getCurrentBatch
    rw [hb]
  | some bid =>
    cases hg : l.batches.get? bid with
    | none =>
      refine Or.inr ?_
      unfold getCurrentBatch
      rw [hb]
      simp only [hg]
    | some b =>
      cases hu : batchUsable l b with
      | false =>
        refine Or.inr ?_
        unfold getCurrentBatch
        rw [hb]
        simp only [hg, hu, Bool.false_eq_true, if_false]
      | true =>
        refine Or.inl ⟨bid, b, rfl, hg, hu, ?_⟩
        unfold getCurrentBatch
        rw [hb]
        simp only [hg, hu, if_true]

theorem dispatchBatch_cacheKeyFn {K C V : Type} [DecidableEq C]
    (backend : List K → BackendResult V) (l : Loader K C V) (bid : Nat) :
    (dispatchBatch backend l bid).cacheKeyFn = l.cacheKeyFn := by
  unfold dispatchBatch
  cases hg : l.batches.get? bid with
  | none =>
    have hg1 : (updateAt l.batches bid (fun b => { b with hasDispatched := true })).get? bid
        = none := by
      rw [updateAt_get?_self, hg]
      rfl
    simp only [hg1]
  | some b =>
    have hg1 : (updateAt l.batches bid (fun b => { b with hasDispatched := true })).get? bid
        = some { b with hasDispatched := true } := by
      rw [updateAt_get?_self, hg]
      rfl
    simp only [hg1]
    cases hk : b.keys.isEmpty with
    | true => simp only [if_true]
    | false =>
      simp only [Bool.false_eq_true, if_false]
      cases hres : backend b.keys with
      | notThenable => exact failedDispatch_cacheKeyFn _ _ _
      | rejects e => exact failedDispatch_cacheKeyFn _ _ _
      | resolvesNonArray => exact failedDispatch_cacheKeyFn _ _ _
      | resolvesArray values =>
        by_cases hvl : values.length = b.keys.length
        · simp only [hvl, if_true]
        · simp only [hvl, if_false]
          exact failedDispatch_cacheKeyFn _ _ _

theorem isCacheHit_eq_false_of_noEntry {K C V : Type} [DecidableEq C]
    (l : Loader K C V) (k : K) (h : noEntry l (l.cacheKeyFn k)) :
    isCacheHit l k = false := by
  unfold isCacheHit
  cases hcm : l.cacheMap with
  | none => rfl
  | some cm =>
    show (assocLookup cm (l.cacheKeyFn k)).isSome = false
    rw [h cm hcm]
    rfl

/-- On a cache miss, `loadK` appends the key to an undispatched pending
batch. -/
theorem loadK_miss_appends {K C V : Type} [DecidableEq C] (l : Loader K C V)
    (k : K) (h : isCacheHit l k = false) :
    ∃ bid2 b2, ((loadK l k).2).batches.get? bid2 = some b2 ∧
      b2.hasDispatched = false ∧ k ∈ b2.keys := by
  have hmiss : ∀ (l1 : Loader K C V) (bid : Nat) (b : Batch K),
      l1.batches.get? bid = some b → b.hasDispatched = false →
      ∃ bid2 b2, ((loadMiss l1 bid k (l1.cacheKeyFn k)).2).batches.get? bid2 = some b2 ∧
        b2.hasDispatched = false ∧ k ∈ b2.keys := by
    intro l1 bid b hg hd
    have h1 : ((loadMiss l1 bid k (l1.cacheKeyFn k)).2).batches.get? bid
        = some { b with keys := b.keys ++ [k],
                        callbacks := b.callbacks ++ [l1.promises.length] } := by
      unfold loadMiss
      cases hcm : l1.cacheMap with
      | none =>
        simp only [hcm]
        rw [updateAt_get?_self, hg]
        rfl
      | some cm =>
        simp only [hcm]
        rw [updateAt_get?_self, hg]
        rfl
    exact ⟨bid, _, h1, hd, by simp⟩
  unfold isCacheHit at h
  rcases getCurrentBatch_spec l with ⟨bid, b, hb, hg, hu, heq⟩ | heq
  · unfold loadK
    rw [heq]
    cases hcm : l.cacheMap with
    | none =>
      simp only [hcm]
      exact hmiss l bid b hg (batchUsable_not_dispatched l b hu)
    | some cm =>
      rw [hcm] at h
      cases hlk : assocLookup cm (l.cacheKeyFn k) with
      | some pid => simp [hlk] at h
      | none =>
        simp only [hcm, hlk]
        exact hmiss l bid b hg (batchUsable_not_dispatched l b hu)
  · unfold loadK
    rw [heq]
    have hg2 : (l.batches ++ [(⟨false, [], [], none⟩ : Batch K)]).get? l.batches.length
        = some ⟨false, [], [], none⟩ := List.get?_concat_length l.batches _
    cases hcm : l.cacheMap with
    | none =>
      simp only [hcm]
      exact hmiss _ l.batches.length ⟨false, [], [], none⟩ hg2 rfl
    | some cm =>
      rw [hcm] at h
      cases hlk : assocLookup cm (l.cacheKeyFn k) with
      | some pid => simp [hlk] at h
      | none =>
        simp only [hcm, hlk]
        exact hmiss _ l.batches.length ⟨false, [], [], none⟩ hg2 rfl

/-- Claim C3: when the backend call of a dispatched non-empty batch
rejects, is not a thenable, resolves with a non-array, or resolves with an
array of the wrong length, every waiter of the batch is rejected with the
dispatch-level error, every key of the batch loses its cache entry, and a
subsequent `load` of any of those keys takes the cache-miss path, joining
a fresh pending batch (hence a fresh backend call) instead of returning a
cached result. Hypotheses are the reachable-state invariants as in C1. -/
theorem c3_dispatch_failure {K C V : Type} [DecidableEq C]
    (backend : List K → BackendResult V) (l : Loader K C V) (bid : Nat)
    (b : Batch K) (E : JsError)
    (hb : l.batches.get? bid = some b)
    (hne : b.keys ≠ [])
    (hlen : b.keys.length = b.callbacks.length)
    (hnd : b.callbacks.Nodup)
    (hpend : ∀ pid ∈ b.callbacks, l.promises.get? pid = some .pending)
    (hdisj : ∀ hs, b.cacheHits = some hs → ∀ pc ∈ hs, pc.1 ∉ b.callbacks)
    (hfail : dispatchErrOf (backend b.keys) b.keys.length = some E) :
    (∀ pid ∈ b.callbacks, (dispatchBatch backend l bid).promises.get? pid
        = some (.settled (.rejected E)))
    ∧ (∀ k ∈ b.keys, noEntry (dispatchBatch backend l bid) (l.cacheKeyFn k))
    ∧ (∀ k ∈ b.keys, isCacheHit (dispatchBatch backend l bid) k = false)
    ∧ (∀ k ∈ b.keys, ∃ bid2 b2,
        ((loadK (dispatchBatch backend l bid) k).2).batches.get? bid2 = some b2 ∧
        b2.hasDispatched = false ∧ k ∈ b2.keys) := by
  have hb1 : (updateAt l.batches bid (fun b => { b with hasDispatched := true })).get? bid
      = some { b with hasDispatched := true } := by
    rw [updateAt_get?_self, hb]
    rfl
  have hkeysne : b.keys.isEmpty = false := by
    cases hk : b.keys with
    | nil => exact absurd hk hne
    | cons a rest => rfl
  have hdisp : dispatchBatch backend l bid
      = failedDispatch
          { l with batches := updateAt l.batches bid (fun b => { b with hasDispatched := true }),
                   backendCalls := l.backendCalls ++ [b.keys] }
          { b with hasDispatched := true } E := by
    unfold dispatchBatch
    simp only [hb1, hkeysne, Bool.false_eq_true, if_false]
    cases hres : backend b.keys with
    | notThenable =>
      rw [hres] at hfail
      unfold dispatchErrOf at hfail
      injection hfail with hE
      rw [hE]
    | rejects e =>
      rw [hres] at hfail
      unfold dispatchErrOf at hfail
      injection hfail with hE
      rw [hE]
    | resolvesNonArray =>
      rw [hres] at hfail
      unfold dispatchErrOf at hfail
      injection hfail with hE
      rw [hE]
    | resolvesArray values =>
      rw [hres] at hfail
      simp only [dispatchErrOf] at hfail
      by_cases hvl : values.length = b.keys.length
      · rw [if_pos hvl] at hfail
        cases hfail
      · rw [if_neg hvl] at hfail
        injection hfail with hE
        simp only [if_neg hvl]
        rw [hE]
  have hsnd : ((b.keys.zip b.callbacks).map Prod.snd) = b.callbacks :=
    List.map_snd_zip b.keys b.callbacks (le_of_eq hlen.symm)
  have hrej : ∀ pid ∈ b.callbacks, (dispatchBatch backend l bid).promises.get? pid
      = some (.settled (.rejected E)) := by
    intro pid hm
    rw [hdisp, failedDispatch_promises]
    show (rejFold (resolveCacheHitsPs l.promises { b with hasDispatched := true })
        ((b.keys.zip b.callbacks).map Prod.snd) E).get? pid = _
    rw [hsnd]
    refine rejFold_run b.callbacks _ E hnd ?_ pid hm
    intro q hq
    rw [resolveCacheHitsPs_get?_keep]
    · exact hpend q hq
    · intro hs hhs pc hpc he
      exact hdisj hs hhs pc hpc (he ▸ hq)
  have hclear : ∀ k ∈ b.keys, noEntry (dispatchBatch backend l bid) (l.cacheKeyFn k) := by
    intro k hk
    rw [hdisp]
    exact failedDispatch_clears _ { b with hasDispatched := true } E hlen k hk
  have hmiss : ∀ k ∈ b.keys, isCacheHit (dispatchBatch backend l bid) k = false := by
    intro k hk
    refine isCacheHit_eq_false_of_noEntry _ k ?_
    rw [dispatchBatch_cacheKeyFn]
    exact hclear k hk
  refine ⟨hrej, hclear, hmiss, ?_⟩
  intro k hk
  exact loadK_miss_appends _ k (hmiss k hk)

/-- Concrete run of C3: a dispatched batch whose backend resolves with a
response of the wrong length rejects both waiters with the length-error
and evicts both cache entries, so a reload appends the key to a fresh
pending batch. -/
theorem c3_dispatch_failure_witness :
    (∀ pid ∈ [0, 1],
      (dispatchBatch (K := Nat) (C := Nat) (V := Nat)
        (fun _ => .resolvesArray [.val 7])
        { maxBatchSize := none, cacheKeyFn := id,
          promises := [.pending, .pending],
          batches := [⟨false, [10, 11], [0, 1], none⟩],
          batch := some 0, cacheMap := some [(10, 0), (11, 1)],
          pendingDispatches := [0], backendCalls := [] } 0).promises.get? pid
        = some (.settled (.rejected (.typeError lengthMismatchMsg))))
    ∧ (∀ k ∈ [10, 11], noEntry (dispatchBatch (K := Nat) (C := Nat) (V := Nat)
        (fun _ => .resolvesArray [.val 7])
        { maxBatchSize := none, cacheKeyFn := id,
          promises := [.pending, .pending],
          batches := [⟨false, [10, 11], [0, 1], none⟩],
          batch := some 0, cacheMap := some [(10, 0), (11, 1)],
          pendingDispatches := [0], backendCalls := [] } 0) (id k))
    ∧ (∀ k ∈ [10, 11], isCacheHit (dispatchBatch (K := Nat) (C := Nat) (V := Nat)
        (fun _ => .resolvesArray [.val 7])
        { maxBatchSize := none, cacheKeyFn := id,
          promises := [.pending, .pending],
          batches := [⟨false, [10, 11], [0, 1], none⟩],
          batch := some 0, cacheMap := some [(10, 0), (11, 1)],
          pendingDispatches := [0], backendCalls := [] } 0) k = false)
    ∧ (∀ k ∈ [10, 11], ∃ bid2 b2,
        ((loadK (dispatchBatch (K := Nat) (C := Nat) (V := Nat)
          (fun _ => .resolvesArray [.val 7])
          { maxBatchSize := none, cacheKeyFn := id,
            promises := [.pending, .pending],
            batches := [⟨false, [10, 11], [0, 1], none⟩],
            batch := some 0, cacheMap := some [(10, 0), (11, 1)],
            pendingDispatches := [0], backendCalls := [] } 0) k).2).batches.get? bid2
          = some b2 ∧ b2.hasDispatched = false ∧ k ∈ b2.keys) :=
  c3_dispatch_failure (K := Nat) (C := Nat) (V := Nat)
    (fun _ => .resolvesArray [.val 7])
    { maxBatchSize := none, cacheKeyFn := id,
      promises := [.pending, .pending],
      batches := [⟨false, [10, 11], [0, 1], none⟩],
      batch := some 0, cacheMap := some [(10, 0), (11, 1)],
      pendingDispatches := [0], backendCalls := [] } 0
    ⟨false, [10, 11], [0, 1], none⟩ (.typeError lengthMismatchMsg)
    rfl (by decide) rfl (by decide) (by decide)
    (fun hs h => by cases h) rfl

/-! ### Helper lemmas: `loadMany` and the promise combinators -/

theorem catchToValue_eq {V : Type} (o : Outcome V) :
    catchToValue o = .resolved (outcomeToVE o) := by
  cases o <;> rfl

theorem firstRejection_catch {V : Type} (os : List (Option (Outcome V))) :
    firstRejection (os.map (fun o => o.map catchToValue)) = none := by
  induction os with
  | nil => rfl
  | cons o rest ih =>
    cases o with
    | none => simpa [firstRejection] using ih
    | some oc =>
      rw [List.map_cons, Option.map_some', catchToValue_eq]
      simpa [firstRejection] using ih

theorem allResolved_catch {V : Type} (os : List (Option (Outcome V)))
    (h : ∀ o ∈ os, o.isSome) :
    ∃ vs, allResolved (os.map (fun o => o.map catchToValue)) = some vs ∧
      vs.length = os.length ∧
      ∀ i, vs.get? i = (os.get? i).bind (fun o => o.map outcomeToVE) := by
  induction os with
  | nil => exact ⟨[], rfl, rfl, fun i => rfl⟩
  | cons o rest ih =>
    cases o with
    | none =>
      have := h none (List.mem_cons_self _ _)
      cases this
    | some oc =>
      rcases ih (fun x hx => h x (List.mem_cons_of_mem _ hx)) with ⟨vs, hvs, hl, hget⟩
      refine ⟨outcomeToVE oc :: vs, ?_, by simpa using hl, ?_⟩
      · rw [List.map_cons, Option.map_some', catchToValue_eq]
        show (allResolved (rest.map (fun o => o.map catchToValue))).map _ = _
        rw [hvs]
        rfl
      · intro i
        cases i with
        | zero => rfl
        | succ j => simpa using hget j

/-- Lemma: `loadMany`'s future never rejects: every position has been `.catch`ed
into a resolution, so `Promise.all` never observes a rejection. -/
theorem loadManyOutcome_never_rejects {V : Type} (ps : List (PState V))
    (pids : List Nat) (e : JsError) :
    loadManyOutcome ps pids ≠ some (.rejected e) := by
  unfold loadManyOutcome promiseAll
  have hmm : pids.map (fun pid => (outcomeOf ps pid).map catchToValue)
      = (pids.map (fun pid => outcomeOf ps pid)).map (fun o => o.map catchToValue) := by
    rw [List.map_map]
    rfl
  rw [hmm, firstRejection_catch]
  cases allResolved ((pids.map (fun pid => outcomeOf ps pid)).map (fun o => o.map catchToValue)) with
  | none => simp
  | some vs => simp

theorem loadManyGo_ok {K C V : Type} [DecidableEq C] (ks : List K)
    (l : Loader K C V) :
    ∃ pids l', loadManyGo l (ks.map some) = .ok (pids, l') ∧
      pids.length = ks.length := by
  induction ks generalizing l with
  | nil => exact ⟨[], l, rfl, rfl⟩
  | cons k rest ih =>
    rcases ih (loadK l k).2 with ⟨pids, l', hgo, hl⟩
    refine ⟨(loadK l k).1 :: pids, l', ?_, by simpa using hl⟩
    show (match load l (some k) with
      | Except.error e => Except.error e
      | Except.ok (pid, l1) =>
        match loadManyGo l1 (rest.map some) with
        | Except.error e => Except.error e
        | Except.ok (pids, l2) => Except.ok (pid :: pids, l2)) = _
    rw [show load l (some k) = Except.ok (loadK l k) from rfl]
    show (match loadManyGo (loadK l k).2 (rest.map some) with
      | Except.error e => Except.error e
      | Except.ok (pids, l2) => Except.ok ((loadK l k).1 :: pids, l2)) = _
    rw [hgo]

/-- Claim C4: `loadMany` on an array of keys issues `load` for every key
in order and returns a future that never rejects as a whole; once all the
issued loads have settled it resolves to a same-length sequence in which
position `i` holds the value of load `i` if it resolved and its failure
(`Error`) if it rejected. -/
theorem c4_loadMany_isolates_failures {K C V : Type} [DecidableEq C]
    (l : Loader K C V) (keys : List K) :
    ∃ pids l', loadMany l (.arrayLike (keys.map some)) = .ok (pids, l')
      ∧ pids.length = keys.length
      ∧ (∀ (ps : List (PState V)) (e : JsError),
          loadManyOutcome ps pids ≠ some (.rejected e))
      ∧ (∀ ps : List (PState V), (∀ pid ∈ pids, (outcomeOf ps pid).isSome) →
          ∃ ws, loadManyOutcome ps pids = some (.resolved ws) ∧
            ws.length = pids.length ∧
            ∀ i pid, pids.get? i = some pid →
              ws.get? i = (outcomeOf ps pid).map outcomeToVE) := by
  rcases loadManyGo_ok keys l with ⟨pids, l', hgo, hl⟩
  refine ⟨pids, l', hgo, hl, fun ps e => loadManyOutcome_never_rejects ps pids e, ?_⟩
  intro ps hsome
  have hall : ∀ o ∈ pids.map (fun pid => outcomeOf ps pid), o.isSome := by
    intro o ho
    rcases List.mem_map.mp ho with ⟨pid, hpid, rfl⟩
    exact hsome pid hpid
  rcases allResolved_catch (pids.map (fun pid => outcomeOf ps pid)) hall
    with ⟨vs, hvs, hvl, hvget⟩
  have hmm : pids.map (fun pid => (outcomeOf ps pid).map catchToValue)
      = (pids.map (fun pid => outcomeOf ps pid)).map (fun o => o.map catchToValue) := by
    rw [List.map_map]
    rfl
  refine ⟨vs, ?_, by simpa using hvl, ?_⟩
  · unfold loadManyOutcome promiseAll
    rw [hmm, firstRejection_catch, hvs]
  · intro i pid hpid
    have := hvget i
    rw [List.get?_map, hpid] at this
    simpa using this

/-! ### Helper lemmas: `batchUsable` as a conjunction -/

theorem batchUsable_spec {K C V : Type} (l : Loader K C V) (b : Batch K) :
    batchUsable l b = true ↔
      (b.hasDispatched = false ∧ underMax l.maxBatchSize b.keys.length = true ∧
       ∀ hs, b.cacheHits = some hs → underMax l.maxBatchSize hs.length = true) := by
  unfold batchUsable
  cases hch : b.cacheHits with
  | none =>
    simp only [Bool.and_true, Bool.and_eq_true, Bool.not_eq_true']
    constructor
    · intro h
      exact ⟨h.1, h.2, fun hs hhs => by cases hhs⟩
    · intro h
      exact ⟨h.1, h.2.1⟩
  | some hs =>
    simp only [Bool.and_eq_true, Bool.not_eq_true']
    constructor
    · intro h
      exact ⟨h.1.1, h.1.2, fun hs2 hhs => by cases hhs; exact h.2⟩
    · intro h
      exact ⟨⟨h.1, h.2.1⟩, h.2.2 hs rfl⟩

theorem batchUsable_false_spec {K C V : Type} (l : Loader K C V) (b : Batch K)
    (h : batchUsable l b = false) :
    b.hasDispatched = true ∨ underMax l.maxBatchSize b.keys.length = false ∨
    ∃ hs, b.cacheHits = some hs ∧ underMax l.maxBatchSize hs.length = false := by
  cases hd : b.hasDispatched with
  | true => exact Or.inl rfl
  | false =>
    cases hk : underMax l.maxBatchSize b.keys.length with
    | false => exact Or.inr (Or.inl rfl)
    | true =>
      cases hch : b.cacheHits with
      | none =>
        exfalso
        have ht : batchUsable l b = true := (batchUsable_spec l b).mpr
          ⟨hd, hk, fun hs hhs => by rw [hch] at hhs; cases hhs⟩
        rw [h] at ht
        cases ht
      | some hs =>
        cases hu2 : underMax l.maxBatchSize hs.length with
        | false => exact Or.inr (Or.inr ⟨hs, rfl, hu2⟩)
        | true =>
          exfalso
          have ht : batchUsable l b = true := (batchUsable_spec l b).mpr
            ⟨hd, hk, fun hs2 hhs => by rw [hch] at hhs; cases hhs; exact hu2⟩
          rw [h] at ht
          cases ht

/-- Claim C8 (amended): on a cache miss, `load` opens a new batch and
schedules exactly one future flush of it if and only if one of FOUR
conditions holds: no batch is open, the current batch is dispatched, its
key count has reached the maximum batch size, or its cache-hit list has
reached the maximum batch size; otherwise the existing batch is reused
unchanged, and on a miss the key and a fresh promise are appended to the
batch `getCurrentBatch` returned. -/
theorem c8_new_batch_iff {K C V : Type} [DecidableEq C] (l : Loader K C V)
    (hb : l.batch = none ∨ ∃ bid b, l.batch = some bid ∧ l.batches.get? bid = some b) :
    (((getCurrentBatch l).1 = l.batches.length ∧
      (getCurrentBatch l).2.batches.length = l.batches.length + 1 ∧
      (getCurrentBatch l).2.pendingDispatches = l.pendingDispatches ++ [l.batches.length])
      ↔ (l.batch = none ∨ ∃ bid b, l.batch = some bid ∧ l.batches.get? bid = some b ∧
          (b.hasDispatched = true
           ∨ underMax l.maxBatchSize b.keys.length = false
           ∨ ∃ hs, b.cacheHits = some hs ∧ underMax l.maxBatchSize hs.length = false)))
    ∧ (∀ bid b, l.batch = some bid → l.batches.get? bid = some b →
        batchUsable l b = true → getCurrentBatch l = (bid, l))
    ∧ (∀ k : K, isCacheHit l k = false →
        ∃ b1, ((getCurrentBatch l).2).batches.get? ((getCurrentBatch l).1) = some b1 ∧
          ((loadK l k).2).batches.get? ((getCurrentBatch l).1)
            = some { b1 with keys := b1.keys ++ [k],
                             callbacks := b1.callbacks ++ [l.promises.length] }) := by
  have husable : ∀ bid b, l.batch = some bid → l.batches.get? bid = some b →
      batchUsable l b = true → getCurrentBatch l = (bid, l) := by
    intro bid b hbat hg hu
    unfold getCurrentBatch
    rw [hbat]
    simp only [hg, hu, if_true]
  have hfreshEq : ∀ bid b, l.batch = some bid → l.batches.get? bid = some b →
      batchUsable l b = false → getCurrentBatch l =
        (l.batches.length,
         { l with batches := l.batches ++ [⟨false, [], [], none⟩],
                  batch := some l.batches.length,
                  pendingDispatches := l.pendingDispatches ++ [l.batches.length] }) := by
    intro bid b hbat hg hu
    unfold getCurrentBatch
    rw [hbat]
    simp only [hg, hu, Bool.false_eq_true, if_false]
  have hnoneEq : l.batch = none → getCurrentBatch l =
      (l.batches.length,
       { l with batches := l.batches ++ [⟨false, [], [], none⟩],
                batch := some l.batches.length,
                pendingDispatches := l.pendingDispatches ++ [l.batches.length] }) := by
    intro hbat
    unfold getCurrentBatch
    rw [hbat]
  have happend : ∀ k : K, isCacheHit l k = false →
      ∃ b1, ((getCurrentBatch l).2).batches.get? ((getCurrentBatch l).1) = some b1 ∧
        ((loadK l k).2).batches.get? ((getCurrentBatch l).1)
          = some { b1 with keys := b1.keys ++ [k],
                           callbacks := b1.callbacks ++ [l.promises.length] } := by
    intro k hmiss0
    unfold isCacheHit at hmiss0
    rcases getCurrentBatch_spec l with ⟨bid, b, hbat, hg, hu, heq⟩ | heq
    · refine ⟨b, ?_, ?_⟩
      · rw [heq]
        exact hg
      · unfold loadK
        rw [heq]
        have hdo : ((loadMiss l bid k (l.cacheKeyFn k)).2).batches.get? bid
            = some { b with keys := b.keys ++ [k],
                            callbacks := b.callbacks ++ [l.promises.length] } := by
          unfold loadMiss
          cases hcm : l.cacheMap with
          | none =>
            simp only [hcm]
            rw [updateAt_get?_self, hg]
            rfl
          | some cm =>
            simp only [hcm]
            rw [updateAt_get?_self, hg]
            rfl
        cases hcm : l.cacheMap with
        | none =>
          simp only [hcm]
          show ((loadMiss l bid k (l.cacheKeyFn k)).2).batches.get? bid = _
          exact hdo
        | some cm =>
          rw [hcm] at hmiss0
          cases hlk : assocLookup cm (l.cacheKeyFn k) with
          | some pid => simp [hlk] at hmiss0
          | none =>
            simp only [hcm, hlk]
            show ((loadMiss l bid k (l.cacheKeyFn k)).2).batches.get? bid = _
            exact hdo
    · rw [heq]
      refine ⟨⟨false, [], [], none⟩, List.get?_concat_length l.batches _, ?_⟩
      unfold loadK
      rw [heq]
      have hg2 : ((l.batches ++ [(⟨false, [], [], none⟩ : Batch K)])).get? l.batches.length
          = some ⟨false, [], [], none⟩ := List.get?_concat_length l.batches _
      have hdo : ∀ (lf : Loader K C V), lf.batches = l.batches ++ [⟨false, [], [], none⟩] →
          lf.promises = l.promises →
          ((loadMiss lf l.batches.length k (lf.cacheKeyFn k)).2).batches.get? l.batches.length
            = some ⟨false, [] ++ [k], [] ++ [l.promises.length], none⟩ := by
        intro lf hlb hlp
        unfold loadMiss
        cases hcm : lf.cacheMap with
        | none =>
          simp only [hcm]
          rw [updateAt_get?_self, hlb, hg2, hlp]
          rfl
        | some cm =>
          simp only [hcm]
          rw [updateAt_get?_self, hlb, hg2, hlp]
          rfl
      cases hcm : l.cacheMap with
      | none =>
        simp only [hcm]
        exact hdo _ rfl rfl
      | some cm =>
        rw [hcm] at hmiss0
        cases hlk : assocLookup cm (l.cacheKeyFn k) with
        | some pid => simp [hlk] at hmiss0
        | none =>
          simp only [hcm, hlk]
          exact hdo _ rfl rfl
  refine ⟨?_, husable, happend⟩
  rcases hb with hbat | ⟨bid, b, hbat, hg⟩
  · have heq := hnoneEq hbat
    refine iff_of_true ?_ (Or.inl hbat)
    rw [heq]
    exact ⟨rfl, by simp, rfl⟩
  · cases hu : batchUsable l b with
    | true =>
      have heq := husable bid b hbat hg hu
      refine iff_of_false ?_ ?_
      · intro hc
        rw [heq] at hc
        have hlt : bid < l.batches.length := (List.get?_eq_some.mp hg).1
        omega
      · intro hc
        rcases hc with hc | ⟨bid2, b2, hbat2, hg2, hcond⟩
        · rw [hbat] at hc
          cases hc
        · rw [hbat] at hbat2
          injection hbat2 with hbid
          subst hbid
          rw [hg] at hg2
          injection hg2 with hb2
          subst hb2
          rcases (batchUsable_spec l b).mp hu with ⟨hd, hk, hch⟩
          rcases hcond with hc1 | hc2 | ⟨hs, hhs, hc3⟩
          · rw [hd] at hc1
            cases hc1
          · rw [hk] at hc2
            cases hc2
          · rw [hch hs hhs] at hc3
            cases hc3
    | false =>
      have heq := hfreshEq bid b hbat hg hu
      refine iff_of_true ?_ ?_
      · rw [heq]
        exact ⟨rfl, by simp, rfl⟩
      · exact Or.inr ⟨bid, b, hbat, hg, batchUsable_false_spec l b hu⟩

/-- Concrete application of C8 (amended) on a fresh loader: no batch is
open, so the first condition holds and a new batch is opened and
scheduled. -/
theorem c8_new_batch_iff_witness :
    (((getCurrentBatch (mkLoader (K := Nat) (C := Nat) (V := Nat) none id true)).1 = (mkLoader (K := Nat) (C := Nat) (V := Nat) none id true).batches.length ∧
      (getCurrentBatch (mkLoader (K := Nat) (C := Nat) (V := Nat) none id true)).2.batches.length = (mkLoader (K := Nat) (C := Nat) (V := Nat) none id true).batches.length + 1 ∧
      (getCurrentBatch (mkLoader (K := Nat) (C := Nat) (V := Nat) none id true)).2.pendingDispatches
        = (mkLoader (K := Nat) (C := Nat) (V := Nat) none id true).pendingDispatches ++ [(mkLoader (K := Nat) (C := Nat) (V := Nat) none id true).batches.length])
      ↔ ((mkLoader (K := Nat) (C := Nat) (V := Nat) none id true).batch = none ∨ ∃ bid b, (mkLoader (K := Nat) (C := Nat) (V := Nat) none id true).batch = some bid ∧
          (mkLoader (K := Nat) (C := Nat) (V := Nat) none id true).batches.get? bid = some b ∧
          (b.hasDispatched = true
           ∨ underMax (mkLoader (K := Nat) (C := Nat) (V := Nat) none id true).maxBatchSize b.keys.length = false
           ∨ ∃ hs, b.cacheHits = some hs ∧ underMax (mkLoader (K := Nat) (C := Nat) (V := Nat) none id true).maxBatchSize hs.length = false)))
    ∧ (∀ bid b, (mkLoader (K := Nat) (C := Nat) (V := Nat) none id true).batch = some bid → (mkLoader (K := Nat) (C := Nat) (V := Nat) none id true).batches.get? bid = some b →
        batchUsable (mkLoader (K := Nat) (C := Nat) (V := Nat) none id true) b = true → getCurrentBatch (mkLoader (K := Nat) (C := Nat) (V := Nat) none id true) = (bid, (mkLoader (K := Nat) (C := Nat) (V := Nat) none id true)))
    ∧ (∀ k : Nat, isCacheHit (mkLoader (K := Nat) (C := Nat) (V := Nat) none id true) k = false →
        ∃ b1, ((getCurrentBatch (mkLoader (K := Nat) (C := Nat) (V := Nat) none id true)).2).batches.get? ((getCurrentBatch (mkLoader (K := Nat) (C := Nat) (V := Nat) none id true)).1) = some b1 ∧
          ((loadK (mkLoader (K := Nat) (C := Nat) (V := Nat) none id true) k).2).batches.get? ((getCurrentBatch (mkLoader (K := Nat) (C := Nat) (V := Nat) none id true)).1)
            = some { b1 with keys := b1.keys ++ [k],
                             callbacks := b1.callbacks ++ [(mkLoader (K := Nat) (C := Nat) (V := Nat) none id true).promises.length] }) :=
  c8_new_batch_iff (mkLoader (K := Nat) (C := Nat) (V := Nat) none id true) (Or.inl rfl)

/-- The original three-condition claim is false on the code: after two
loads of the same key with max batch size 1, batch 1 is the open current
batch, it is not dispatched, and its key count 0 is below the maximum,
yet `getCurrentBatch` opens a new batch (because the cache-hit list has
reached the maximum). -/
theorem c8_three_conditions_counterexample :
    (loadK (loadK (mkLoader (K := Nat) (C := Nat) (V := Nat) (some 1) id true) 0).2 0).2.batch
      = some 1
    ∧ (loadK (loadK (mkLoader (K := Nat) (C := Nat) (V := Nat) (some 1) id true) 0).2 0).2.batches.get? 1
      = some ⟨false, [], [], some [(1, 0)]⟩
    ∧ underMax (some 1) 0 = true
    ∧ (getCurrentBatch (loadK (loadK (mkLoader (K := Nat) (C := Nat) (V := Nat) (some 1) id true) 0).2 0).2).2.batches.length
      = (loadK (loadK (mkLoader (K := Nat) (C := Nat) (V := Nat) (some 1) id true) 0).2 0).2.batches.length + 1 := by
  decide

/-- Claim C2: with caching enabled, a second `load` of the same key
before the flush takes the cache-hit path: the batches' key lists still
hold exactly one entry for the key, and after the scheduled flush runs
(whatever the backend does) the futures returned by the two calls settle
to the same outcome. Generic in the max batch size (covering the case
where the hit is queued on a fresh batch), the cache-key projection, the
key and the backend. -/
theorem c2_second_load_is_cache_hit {K C V : Type} [DecidableEq C]
    (m : Option Nat) (f : K → C) (k : K)
    (backend : List K → BackendResult V) :
    allKeys ((loadK ((loadK (mkLoader m f true : Loader K C V) k).2) k).2) = [k]
    ∧ outcomeOf (runScheduled backend ((loadK ((loadK (mkLoader m f true : Loader K C V) k).2) k).2)).promises
        ((loadK (mkLoader m f true : Loader K C V) k).1)
      = outcomeOf (runScheduled backend ((loadK ((loadK (mkLoader m f true : Loader K C V) k).2) k).2)).promises
        ((loadK ((loadK (mkLoader m f true : Loader K C V) k).2) k).1)
    ∧ (outcomeOf (runScheduled backend ((loadK ((loadK (mkLoader m f true : Loader K C V) k).2) k).2)).promises
        ((loadK (mkLoader m f true : Loader K C V) k).1)).isSome = true := by
  cases hm1 : underMax m 1 with
  | true =>
    cases hres : backend [k] with
    | notThenable =>
      refine ⟨?_, ?_, ?_⟩ <;>
        simp [loadK, getCurrentBatch, batchUsable, loadMiss, mkLoader, allKeys,
          runScheduled, dispatchBatch, failedDispatch, resolveCacheHitsPs,
          settleAll, settlePid, linkPid, updateAt, assocLookup, assocSet, clear,
          outcomeOf, outcomeOfFuel, hm1, hres]
    | rejects e =>
      refine ⟨?_, ?_, ?_⟩ <;>
        simp [loadK, getCurrentBatch, batchUsable, loadMiss, mkLoader, allKeys,
          runScheduled, dispatchBatch, failedDispatch, resolveCacheHitsPs,
          settleAll, settlePid, linkPid, updateAt, assocLookup, assocSet, clear,
          outcomeOf, outcomeOfFuel, hm1, hres]
    | resolvesNonArray =>
      refine ⟨?_, ?_, ?_⟩ <;>
        simp [loadK, getCurrentBatch, batchUsable, loadMiss, mkLoader, allKeys,
          runScheduled, dispatchBatch, failedDispatch, resolveCacheHitsPs,
          settleAll, settlePid, linkPid, updateAt, assocLookup, assocSet, clear,
          outcomeOf, outcomeOfFuel, hm1, hres]
    | resolvesArray vs =>
      cases vs with
      | nil =>
        refine ⟨?_, ?_, ?_⟩ <;>
          simp [loadK, getCurrentBatch, batchUsable, loadMiss, mkLoader, allKeys,
            runScheduled, dispatchBatch, failedDispatch, resolveCacheHitsPs,
            settleAll, settlePid, linkPid, updateAt, assocLookup, assocSet, clear,
            outcomeOf, outcomeOfFuel, hm1, hres]
      | cons w vs' =>
        cases vs' with
        | nil =>
          cases w with
          | val v =>
            refine ⟨?_, ?_, ?_⟩ <;>
              simp [loadK, getCurrentBatch, batchUsable, loadMiss, mkLoader, allKeys,
                runScheduled, dispatchBatch, failedDispatch, resolveCacheHitsPs,
                settleAll, settlePid, linkPid, updateAt, assocLookup, assocSet, clear,
                outcomeOf, outcomeOfFuel, hm1, hres]
          | err e =>
            refine ⟨?_, ?_, ?_⟩ <;>
              simp [loadK, getCurrentBatch, batchUsable, loadMiss, mkLoader, allKeys,
                runScheduled, dispatchBatch, failedDispatch, resolveCacheHitsPs,
                settleAll, settlePid, linkPid, updateAt, assocLookup, assocSet, clear,
                outcomeOf, outcomeOfFuel, hm1, hres]
        | cons w2 vs'' =>
          refine ⟨?_, ?_, ?_⟩ <;>
            simp [loadK, getCurrentBatch, batchUsable, loadMiss, mkLoader, allKeys,
              runScheduled, dispatchBatch, failedDispatch, resolveCacheHitsPs,
              settleAll, settlePid, linkPid, updateAt, assocLookup, assocSet, clear,
              outcomeOf, outcomeOfFuel, hm1, hres]
  | false =>
    cases hres : backend [k] with
    | notThenable =>
      refine ⟨?_, ?_, ?_⟩ <;>
        simp [loadK, getCurrentBatch, batchUsable, loadMiss, mkLoader, allKeys,
          runScheduled, dispatchBatch, failedDispatch, resolveCacheHitsPs,
          settleAll, settlePid, linkPid, updateAt, assocLookup, assocSet, clear,
          outcomeOf, outcomeOfFuel, hm1, hres]
    | rejects e =>
      refine ⟨?_, ?_, ?_⟩ <;>
        simp [loadK, getCurrentBatch, batchUsable, loadMiss, mkLoader, allKeys,
          runScheduled, dispatchBatch, failedDispatch, resolveCacheHitsPs,
          settleAll, settlePid, linkPid, updateAt, assocLookup, assocSet, clear,
          outcomeOf, outcomeOfFuel, hm1, hres]
    | resolvesNonArray =>
      refine ⟨?_, ?_, ?_⟩ <;>
        simp [loadK, getCurrentBatch, batchUsable, loadMiss, mkLoader, allKeys,
          runScheduled, dispatchBatch, failedDispatch, resolveCacheHitsPs,
          settleAll, settlePid, linkPid, updateAt, assocLookup, assocSet, clear,
          outcomeOf, outcomeOfFuel, hm1, hres]
    | resolvesArray vs =>
      cases vs with
      | nil =>
        refine ⟨?_, ?_, ?_⟩ <;>
          simp [loadK, getCurrentBatch, batchUsable, loadMiss, mkLoader, allKeys,
            runScheduled, dispatchBatch, failedDispatch, resolveCacheHitsPs,
            settleAll, settlePid, linkPid, updateAt, assocLookup, assocSet, clear,
            outcomeOf, outcomeOfFuel, hm1, hres]
      | cons w vs' =>
        cases vs' with
        | nil =>
          cases w with
          | val v =>
            refine ⟨?_, ?_, ?_⟩ <;>
              simp [loadK, getCurrentBatch, batchUsable, loadMiss, mkLoader, allKeys,
                runScheduled, dispatchBatch, failedDispatch, resolveCacheHitsPs,
                settleAll, settlePid, linkPid, updateAt, assocLookup, assocSet, clear,
                outcomeOf, outcomeOfFuel, hm1, hres]
          | err e =>
            refine ⟨?_, ?_, ?_⟩ <;>
              simp [loadK, getCurrentBatch, batchUsable, loadMiss, mkLoader, allKeys,
                runScheduled, dispatchBatch, failedDispatch, resolveCacheHitsPs,
                settleAll, settlePid, linkPid, updateAt, assocLookup, assocSet, clear,
                outcomeOf, outcomeOfFuel, hm1, hres]
        | cons w2 vs'' =>
          refine ⟨?_, ?_, ?_⟩ <;>
            simp [loadK, getCurrentBatch, batchUsable, loadMiss, mkLoader, allKeys,
              runScheduled, dispatchBatch, failedDispatch, resolveCacheHitsPs,
              settleAll, settlePid, linkPid, updateAt, assocLookup, assocSet, clear,
              outcomeOf, outcomeOfFuel, hm1, hres]

/-- Claim C6 (amended): with caching enabled, `prime(k, v)` inserts an
already-settled promise only when no entry exists for `k`'s cache key
(a second prime of the same key is a no-op); after priming a non-failure
value, a subsequent `load(k)` resolves to that value at its batch's
scheduled flush without any backend call; priming a failure stores an
already-rejected promise, and a subsequent `load(k)` settles to that
failure when its batch's scheduled flush runs, again without any backend
call. -/
theorem c6_prime_semantics {K C V : Type} [DecidableEq C] (m : Option Nat)
    (f : K → C) (k : K) (v : V) (v2 : BatchValue V) (e : JsError)
    (backend : List K → BackendResult V) :
    (prime (mkLoader m f true : Loader K C V) k (.val v)).cacheMap = some [(f k, 0)]
    ∧ prime (prime (mkLoader m f true : Loader K C V) k (.val v)) k v2
        = prime (mkLoader m f true : Loader K C V) k (.val v)
    ∧ (runScheduled backend ((loadK (prime (mkLoader m f true : Loader K C V) k (.val v)) k).2)).backendCalls = []
    ∧ outcomeOf (runScheduled backend ((loadK (prime (mkLoader m f true : Loader K C V) k (.val v)) k).2)).promises
        ((loadK (prime (mkLoader m f true : Loader K C V) k (.val v)) k).1)
      = some (.resolved v)
    ∧ (prime (mkLoader m f true : Loader K C V) k (.err e)).promises
      = [.settled (.rejected e)]
    ∧ (runScheduled backend ((loadK (prime (mkLoader m f true : Loader K C V) k (.err e)) k).2)).backendCalls = []
    ∧ outcomeOf (runScheduled backend ((loadK (prime (mkLoader m f true : Loader K C V) k (.err e)) k).2)).promises
        ((loadK (prime (mkLoader m f true : Loader K C V) k (.err e)) k).1)
      = some (.rejected e) := by
  refine ⟨?_, ?_, ?_, ?_, ?_, ?_, ?_⟩ <;>
    simp [prime, loadK, getCurrentBatch, batchUsable, loadMiss, mkLoader, allKeys,
      runScheduled, dispatchBatch, failedDispatch, resolveCacheHitsPs,
      settleAll, settlePid, linkPid, updateAt, assocLookup, assocSet, clear,
      outcomeOf, outcomeOfFuel]

/-- The original C6 is false in its last clause: after priming a failure,
`load(k)` returns a promise that is still pending before the scheduled
flush has run (it does wait for the batch dispatch), and settles to the
primed failure only once the flush runs. -/
theorem c6_prime_counterexample :
    outcomeOf ((loadK (prime (mkLoader (K := Nat) (C := Nat) (V := Nat) none id true) 5
        (.err (.custom 7))) 5).2).promises
      ((loadK (prime (mkLoader (K := Nat) (C := Nat) (V := Nat) none id true) 5
        (.err (.custom 7))) 5).1) = none
    ∧ outcomeOf (runScheduled (fun _ => .resolvesArray [])
        ((loadK (prime (mkLoader (K := Nat) (C := Nat) (V := Nat) none id true) 5
          (.err (.custom 7))) 5).2)).promises
      ((loadK (prime (mkLoader (K := Nat) (C := Nat) (V := Nat) none id true) 5
        (.err (.custom 7))) 5).1) = some (.rejected (.custom 7)) := by
  decide

/-- Claim C10: a per-item failure is memoized: after a dispatch whose
response holds an `Error` for the key, the cache entry survives (only
dispatch-level failures evict), the stored promise is rejected with that
error, a second `load` of the key adds no new key to any batch, settles
to the same failure once its batch's flush runs, triggers no further
backend call whatever the backend would do, and the entry disappears only
on an explicit `clear`. -/
theorem c10_per_item_failure_memoized {K C V : Type} [DecidableEq C]
    (m : Option Nat) (f : K → C) (k : K) (e : JsError)
    (backend2 : List K → BackendResult V) :
    (runScheduled (fun _ => .resolvesArray [.err e])
        ((loadK (mkLoader m f true : Loader K C V) k).2)).cacheMap = some [(f k, 0)]
    ∧ outcomeOf (runScheduled (fun _ => .resolvesArray [.err e])
        ((loadK (mkLoader m f true : Loader K C V) k).2)).promises
        ((loadK (mkLoader m f true : Loader K C V) k).1) = some (.rejected e)
    ∧ allKeys ((loadK (runScheduled (fun _ => .resolvesArray [.err e])
        ((loadK (mkLoader m f true : Loader K C V) k).2)) k).2) = [k]
    ∧ outcomeOf (runScheduled backend2 ((loadK (runScheduled (fun _ => .resolvesArray [.err e])
        ((loadK (mkLoader m f true : Loader K C V) k).2)) k).2)).promises
        ((loadK (runScheduled (fun _ => .resolvesArray [.err e])
          ((loadK (mkLoader m f true : Loader K C V) k).2)) k).1)
      = some (.rejected e)
    ∧ (runScheduled backend2 ((loadK (runScheduled (fun _ => .resolvesArray [.err e])
        ((loadK (mkLoader m f true : Loader K C V) k).2)) k).2)).backendCalls = [[k]]
    ∧ (clear (runScheduled (fun _ => .resolvesArray [.err e])
        ((loadK (mkLoader m f true : Loader K C V) k).2)) k).cacheMap = some [] := by
  refine ⟨?_, ?_, ?_, ?_, ?_, ?_⟩ <;>
    simp [prime, loadK, getCurrentBatch, batchUsable, loadMiss, mkLoader, allKeys,
      runScheduled, dispatchBatch, failedDispatch, resolveCacheHitsPs,
      settleAll, settlePid, linkPid, updateAt, assocLookup, assocSet, assocDelete,
      clear, outcomeOf, outcomeOfFuel]

/-! ### Helper lemmas: batch-size accounting -/

theorem map_updateAt_eq {α β : Type} (xs : List α) (i : Nat) (f : α → α)
    (g : α → β) (h : ∀ x, g (f x) = g x) :
    (updateAt xs i f).map g = xs.map g := by
  induction xs generalizing i with
  | nil => rfl
  | cons x rest ih =>
    cases i with
    | zero => simp [updateAt, h]
    | succ n => simp [updateAt, ih]

theorem assocLookup_eq_none_of_notMem {C : Type} [DecidableEq C]
    (cm : List (C × Nat)) (c : C) (h : c ∉ cm.map Prod.fst) :
    assocLookup cm c = none := by
  induction cm with
  | nil => rfl
  | cons p rest ih =>
    rw [List.map_cons, List.mem_cons, not_or] at h
    rw [assocLookup, if_neg (fun he => h.1 he.symm)]
    exact ih h.2

theorem assocSet_map_fst {C : Type} [DecidableEq C] (cm : List (C × Nat))
    (c : C) (v : Nat) (h : assocLookup cm c = none) :
    (assocSet cm c v).map Prod.fst = cm.map Prod.fst ++ [c] := by
  induction cm with
  | nil => rfl
  | cons p rest ih =>
    rw [assocLookup] at h
    by_cases hp : p.1 = c
    · rw [if_pos hp] at h
      cases h
    · rw [if_neg hp] at h
      show ((if p.1 = c then (c, v) :: rest else p :: assocSet rest c v).map Prod.fst) = _
      rw [if_neg hp, List.map_cons, ih h, List.map_cons]
      rfl

/-- Dispatching never changes any batch's key list (only the dispatched
flag, promises, the cache map and the call log). -/
theorem dispatchBatch_keys_map {K C V : Type} [DecidableEq C]
    (backend : List K → BackendResult V) (l : Loader K C V) (bid : Nat) :
    (dispatchBatch backend l bid).batches.map (fun b => b.keys)
      = l.batches.map (fun b => b.keys) := by
  have hup : (updateAt l.batches bid (fun b => { b with hasDispatched := true })).map
      (fun b => b.keys) = l.batches.map (fun b => b.keys) :=
    map_updateAt_eq _ _ _ _ (fun x => rfl)
  unfold dispatchBatch
  cases hg : l.batches.get? bid with
  | none =>
    have hg1 : (updateAt l.batches bid (fun b => { b with hasDispatched := true })).get? bid
        = none := by
      rw [updateAt_get?_self, hg]
      rfl
    simp only [hg1]
    exact hup
  | some b =>
    have hg1 : (updateAt l.batches bid (fun b => { b with hasDispatched := true })).get? bid
        = some { b with hasDispatched := true } := by
      rw [updateAt_get?_self, hg]
      rfl
    simp only [hg1]
    cases hk : b.keys.isEmpty with
    | true =>
      simp only [if_true]
      exact hup
    | false =>
      simp only [Bool.false_eq_true, if_false]
      cases hres : backend b.keys with
      | notThenable => rw [failedDispatch_batches]; exact hup
      | rejects e => rw [failedDispatch_batches]; exact hup
      | resolvesNonArray => rw [failedDispatch_batches]; exact hup
      | resolvesArray values =>
        by_cases hvl : values.length = b.keys.length
        · simp only [hvl, if_true]
          exact hup
        · simp only [hvl, if_false]
          rw [failedDispatch_batches]
          exact hup

theorem fdFoldAux_backendCalls {K C V : Type} [DecidableEq C] (e : JsError)
    (pairs : List (K × Nat)) (l : Loader K C V) :
    (pairs.foldl (fun acc kc =>
      let acc1 := clear acc kc.1
      { acc1 with promises := settlePid acc1.promises kc.2 (.rejected e) }) l).backendCalls
      = l.backendCalls := by
  induction pairs generalizing l with
  | nil => rfl
  | cons kc rest ih =>
    rw [List.foldl_cons, ih]
    unfold clear
    cases l.cacheMap <;> rfl

theorem failedDispatch_backendCalls {K C V : Type} [DecidableEq C]
    (l : Loader K C V) (b : Batch K) (e : JsError) :
    (failedDispatch l b e).backendCalls = l.backendCalls := by
  unfold failedDispatch
  exact fdFoldAux_backendCalls e _ _

/-- Dispatching a batch with at least one key appends exactly one backend
call, carrying that batch's keys. -/
theorem dispatchBatch_calls_append {K C V : Type} [DecidableEq C]
    (backend : List K → BackendResult V) (l : Loader K C V) (bid : Nat)
    (b : Batch K) (hb : l.batches.get? bid = some b) (hne : b.keys ≠ []) :
    (dispatchBatch backend l bid).backendCalls = l.backendCalls ++ [b.keys] := by
  have hb1 : (updateAt l.batches bid (fun b => { b with hasDispatched := true })).get? bid
      = some { b with hasDispatched := true } := by
    rw [updateAt_get?_self, hb]
    rfl
  have hkeysne : b.keys.isEmpty = false := by
    cases hk : b.keys with
    | nil => exact absurd hk hne
    | cons a rest => rfl
  unfold dispatchBatch
  simp only [hb1, hkeysne, Bool.false_eq_true, if_false]
  cases hres : backend b.keys with
  | notThenable => rw [failedDispatch_backendCalls]
  | rejects e => rw [failedDispatch_backendCalls]
  | resolvesNonArray => rw [failedDispatch_backendCalls]
  | resolvesArray values =>
    by_cases hvl : values.length = b.keys.length
    · simp only [hvl, if_true]
    · simp only [hvl, if_false]
      rw [failedDispatch_backendCalls]

/-- Folding dispatches over batch ids with non-empty key lists appends
one backend call per id, carrying that batch's keys. -/
theorem dispatchFold_calls {K C V : Type} [DecidableEq C]
    (backend : List K → BackendResult V) (q : List Nat) :
    ∀ l : Loader K C V,
    (∀ bid ∈ q, ∃ b, l.batches.get? bid = some b ∧ b.keys ≠ []) →
    ∃ calls, (q.foldl (dispatchBatch backend) l).backendCalls
        = l.backendCalls ++ calls ∧
      calls.length = q.length ∧
      ∀ i bid b, q.get? i = some bid → l.batches.get? bid = some b →
        calls.get? i = some b.keys := by
  induction q with
  | nil => exact fun l _ => ⟨[], by simp, rfl, fun i bid b hq => by cases hq⟩
  | cons bid0 rest ih =>
    intro l hq
    rcases hq bid0 (List.mem_cons_self _ _) with ⟨b0, hb0, hne0⟩
    have hkeep : ∀ j, ((dispatchBatch backend l bid0).batches.get? j).map (fun b => b.keys)
        = (l.batches.get? j).map (fun b => b.keys) := by
      intro j
      rw [← List.get?_map, ← List.get?_map, dispatchBatch_keys_map]
    have hrest : ∀ bid ∈ rest, ∃ b, (dispatchBatch backend l bid0).batches.get? bid = some b ∧
        b.keys ≠ [] := by
      intro bid hbid
      rcases hq bid (List.mem_cons_of_mem _ hbid) with ⟨b, hb, hne⟩
      have := hkeep bid
      rw [hb] at this
      cases hg : (dispatchBatch backend l bid0).batches.get? bid with
      | none => rw [hg] at this; cases this
      | some b' =>
        rw [hg] at this
        refine ⟨b', rfl, ?_⟩
        injection this with hk
        have hk2 : b'.keys = b.keys := hk
        rw [hk2]
        exact hne
    rcases ih (dispatchBatch backend l bid0) hrest with ⟨calls, hcalls, hlen, hget⟩
    refine ⟨b0.keys :: calls, ?_, by simpa using hlen, ?_⟩
    · rw [List.foldl_cons, hcalls, dispatchBatch_calls_append backend l bid0 b0 hb0 hne0]
      simp
    · intro i bid b hqi hbi
      cases i with
      | zero =>
        cases hqi
        rw [hb0] at hbi
        injection hbi with hb
        rw [hb]
        rfl
      | succ j =>
        have := hkeep bid
        rw [hbi] at this
        cases hg : (dispatchBatch backend l bid0).batches.get? bid with
        | none => rw [hg] at this; cases this
        | some b' =>
          rw [hg] at this
          injection this with hk
          have hk2 : b'.keys = b.keys := hk
          show calls.get? j = some b.keys
          rw [← hk2]
          exact hget j bid b' hqi hg

/-- The load-sequence invariant holds after every non-empty prefix of a
tick of distinct-key loads. -/
theorem loadedInv_holds (m : Nat) (hm : 1 ≤ m) :
    ∀ j, 1 ≤ j → loadedInv m j (afterLoads m j) := by
  intro j
  induction j with
  | zero => exact fun h => absurd h (by omega)
  | succ j ih =>
    intro _
    by_cases hj0 : j = 0
    · subst hj0
      have hbase : afterLoads m 1
          = ⟨some m, id, [.pending], [⟨false, [0], [0], none⟩], some 0,
             some [(0, 0)], [0], []⟩ := rfl
      rw [hbase]
      refine ⟨rfl, rfl, ?_, ?_, rfl, ?_, ?_, ⟨[(0, 0)], rfl, by decide⟩, rfl, rfl⟩
      · show 1 = (1 - 1) / m + 1
        simp
      · show some 0 = some ((1 - 1) / m)
        simp
      · intro i b hib
        cases i with
        | zero =>
          injection hib with hb
          subst hb
          exact ⟨rfl, rfl, by decide, hm⟩
        | succ n => cases hib
      · refine ⟨⟨false, [0], [0], none⟩, ?_, ?_⟩
        · show List.get? _ ((1 - 1) / m) = _
          simp
        · show 1 = (1 - 1) % m + 1
          simp
    · have hj1 : 1 ≤ j := by omega
      rcases ih hj1 with ⟨hmax, hckf, hlen, hbat, hpd, hall, ⟨bl, hbl, hbllen⟩,
        ⟨cm, hcm, hcmf⟩, hbc, hpl⟩
      have hm0 : 0 < m := by omega
      have hrep : m * ((j - 1) / m) + (j - 1) % m = j - 1 := Nat.div_add_mod (j - 1) m
      have hc : (j - 1) % m < m := Nat.mod_lt _ hm0
      have hstep : afterLoads m (j + 1) = (loadK (afterLoads m j) j).2 := by
        unfold afterLoads loadAll
        rw [List.range_succ, List.foldl_append]
        rfl
      have hcomp := hall _ bl hbl
      have hlkj : assocLookup cm j = none := by
        refine assocLookup_eq_none_of_notMem cm j ?_
        rw [hcmf]
        exact List.not_mem_range_self
      have hkj : (afterLoads m j).cacheKeyFn j = j := by
        rw [hckf]
        rfl
      by_cases hfits : bl.keys.length < m
      · -- the current batch still has room: the key joins it
        have harith : j / m = (j - 1) / m ∧ j % m = (j - 1) % m + 1 := by
          refine (Nat.div_mod_unique hm0).mpr ⟨by omega, ?_⟩
          rw [hbllen] at hfits
          omega
        have hbu : batchUsable (afterLoads m j) bl = true := by
          unfold batchUsable
          rw [hcomp.1, hcomp.2.1, hmax]
          simpa [underMax] using hfits
        have hgc : getCurrentBatch (afterLoads m j) = ((j - 1) / m, afterLoads m j) := by
          unfold getCurrentBatch
          rw [hbat]
          simp only [hbl, hbu, if_true]
        have hS : loadK (afterLoads m j) j
            = ((afterLoads m j).promises.length,
               { afterLoads m j with
                  batches := updateAt (afterLoads m j).batches ((j - 1) / m)
                    (fun b => { b with keys := b.keys ++ [j],
                                       callbacks := b.callbacks ++ [(afterLoads m j).promises.length] }),
                  promises := (afterLoads m j).promises ++ [.pending],
                  cacheMap := some (assocSet cm j (afterLoads m j).promises.length) }) := by
          unfold loadK
          rw [hgc]
          simp only [hkj, hcm, hlkj]
          unfold loadMiss
          simp only [hkj, hcm]
        rw [hstep, hS]
        refine ⟨hmax, hckf, ?_, ?_, ?_, ?_, ?_, ?_, hbc, ?_⟩
        · show (updateAt _ _ _).length = (j + 1 - 1) / m + 1
          rw [updateAt_length, hlen]
          simp only [Nat.add_sub_cancel]
          rw [harith.1]
        · show (afterLoads m j).batch = some ((j + 1 - 1) / m)
          rw [hbat]
          simp only [Nat.add_sub_cancel]
          rw [harith.1]
        · show (afterLoads m j).pendingDispatches = List.range (updateAt _ _ _).length
          rw [updateAt_length, hpd]
        · intro i b hib
          by_cases hi : i = (j - 1) / m
          · subst hi
            rw [updateAt_get?_self, hbl] at hib
            injection hib with hb
            subst hb
            refine ⟨hcomp.1, hcomp.2.1, by simp, ?_⟩
            rw [List.length_append, hbllen]
            rw [hbllen] at hfits
            simpa using hfits
          · rw [updateAt_get?_ne _ _ _ _ hi] at hib
            exact hall i b hib
        · have hblget : (updateAt (afterLoads m j).batches ((j - 1) / m)
              (fun b => { b with keys := b.keys ++ [j],
                                 callbacks := b.callbacks ++ [(afterLoads m j).promises.length] })).get?
                ((j + 1 - 1) / m)
              = some { bl with keys := bl.keys ++ [j],
                               callbacks := bl.callbacks ++ [(afterLoads m j).promises.length] } := by
            simp only [Nat.add_sub_cancel]
            rw [harith.1, updateAt_get?_self, hbl]
            rfl
          refine ⟨_, hblget, ?_⟩
          show (bl.keys ++ [j]).length = (j + 1 - 1) % m + 1
          simp only [Nat.add_sub_cancel]
          rw [harith.2, List.length_append, hbllen]
          rfl
        · refine ⟨assocSet cm j (afterLoads m j).promises.length, rfl, ?_⟩
          rw [assocSet_map_fst cm j _ hlkj, hcmf, List.range_succ]
        · show ((afterLoads m j).promises ++ [PState.pending]).length = j + 1
          rw [List.length_append, hpl]
          rfl
      · -- the current batch is full: a fresh batch is opened for the key
        have hceq : (j - 1) % m + 1 = m := by omega
        have harith : j / m = (j - 1) / m + 1 ∧ j % m = 0 := by
          refine (Nat.div_mod_unique hm0).mpr ⟨?_, hm0⟩
          have hmul : m * ((j - 1) / m + 1) = m * ((j - 1) / m) + m := by ring
          omega
        have hbu : batchUsable (afterLoads m j) bl = false := by
          unfold batchUsable
          rw [hcomp.1, hcomp.2.1, hmax]
          simp [underMax, hfits]
        have hgc : getCurrentBatch (afterLoads m j)
            = ((afterLoads m j).batches.length,
               { afterLoads m j with
                  batches := (afterLoads m j).batches ++ [⟨false, [], [], none⟩],
                  batch := some (afterLoads m j).batches.length,
                  pendingDispatches := (afterLoads m j).pendingDispatches
                    ++ [(afterLoads m j).batches.length] }) := by
          unfold getCurrentBatch
          rw [hbat]
          simp only [hbl, hbu, Bool.false_eq_true, if_false]
        have hS : loadK (afterLoads m j) j
            = ((afterLoads m j).promises.length,
               { afterLoads m j with
                  batches := updateAt ((afterLoads m j).batches ++ [⟨false, [], [], none⟩])
                    (afterLoads m j).batches.length
                    (fun b => { b with keys := b.keys ++ [j],
                                       callbacks := b.callbacks ++ [(afterLoads m j).promises.length] }),
                  batch := some (afterLoads m j).batches.length,
                  pendingDispatches := (afterLoads m j).pendingDispatches
                    ++ [(afterLoads m j).batches.length],
                  promises := (afterLoads m j).promises ++ [.pending],
                  cacheMap := some (assocSet cm j (afterLoads m j).promises.length) }) := by
          unfold loadK
          rw [hgc]
          simp only [hkj, hcm, hlkj]
          unfold loadMiss
          simp only [hkj, hcm]
        have hfreshget : ((afterLoads m j).batches ++ [(⟨false, [], [], none⟩ : Batch Nat)]).get?
            (afterLoads m j).batches.length = some ⟨false, [], [], none⟩ :=
          List.get?_concat_length _ _
        rw [hstep, hS]
        refine ⟨hmax, hckf, ?_, ?_, ?_, ?_, ?_, ?_, hbc, ?_⟩
        · show (updateAt _ _ _).length = (j + 1 - 1) / m + 1
          rw [updateAt_length, List.length_append, hlen]
          simp only [Nat.add_sub_cancel]
          rw [harith.1]
          rfl
        · show some (afterLoads m j).batches.length = some ((j + 1 - 1) / m)
          rw [hlen]
          simp only [Nat.add_sub_cancel]
          rw [harith.1]
        · show (afterLoads m j).pendingDispatches ++ [(afterLoads m j).batches.length]
            = List.range (updateAt _ _ _).length
          rw [updateAt_length, List.length_append, hpd, List.length_singleton,
            List.range_succ]
        · intro i b hib
          by_cases hi : i = (afterLoads m j).batches.length
          · subst hi
            rw [updateAt_get?_self, hfreshget] at hib
            injection hib with hb
            subst hb
            exact ⟨rfl, rfl, by simp, by simpa using hm⟩
          · rw [updateAt_get?_ne _ _ _ _ hi] at hib
            by_cases hlt : i < (afterLoads m j).batches.length
            · rw [List.get?_append hlt] at hib
              exact hall i b hib
            · exfalso
              have hge : ((afterLoads m j).batches ++ [(⟨false, [], [], none⟩ : Batch Nat)]).get? i
                  = none := by
                refine List.get?_eq_none.mpr ?_
                rw [List.length_append, List.length_singleton]
                omega
              rw [hge] at hib
              cases hib
        · refine ⟨⟨false, [] ++ [j], [] ++ [(afterLoads m j).promises.length], none⟩, ?_, ?_⟩
          · show (updateAt _ _ _).get? ((j + 1 - 1) / m) = _
            simp only [Nat.add_sub_cancel]
            rw [harith.1, ← hlen, updateAt_get?_self, hfreshget]
            rfl
          · show ([] ++ [j]).length = (j + 1 - 1) % m + 1
            simp only [Nat.add_sub_cancel]
            rw [harith.2]
            rfl
        · refine ⟨assocSet cm j (afterLoads m j).promises.length, rfl, ?_⟩
          rw [assocSet_map_fst cm j _ hlkj, hcmf, List.range_succ]
        · show ((afterLoads m j).promises ++ [PState.pending]).length = j + 1
          rw [List.length_append, hpl]
          rfl

/-- One `load` changes batch key lists in exactly one of four ways:
an existing batch's keys stay as they were, the key is appended to a
batch that was usable, or the touched batch is the freshly opened one
(empty on a cache hit, exactly the key on a miss). -/
theorem loadK_keys_cases {K C V : Type} [DecidableEq C] (l : Loader K C V)
    (k : K) : ∀ i b, ((loadK l k).2).batches.get? i = some b →
    (∃ b0, l.batches.get? i = some b0 ∧
      (b.keys = b0.keys ∨ (b.keys = b0.keys ++ [k] ∧ batchUsable l b0 = true)))
    ∨ b.keys = [] ∨ b.keys = [k] := by
  intro i b hib
  rcases getCurrentBatch_spec l with ⟨bid, b0, hbat, hg, hu, heq⟩ | heq
  · unfold loadK at hib
    rw [heq] at hib
    cases hcm : l.cacheMap with
    | none =>
      simp only [hcm] at hib
      unfold loadMiss at hib
      simp only [hcm] at hib
      by_cases hi : i = bid
      · subst hi
        rw [updateAt_get?_self, hg] at hib
        injection hib with hb
        subst hb
        exact Or.inl ⟨b0, hg, Or.inr ⟨rfl, hu⟩⟩
      · rw [updateAt_get?_ne _ _ _ _ hi] at hib
        exact Or.inl ⟨b, hib, Or.inl rfl⟩
    | some cm =>
      cases hlk : assocLookup cm (l.cacheKeyFn k) with
      | some cpid =>
        simp only [hcm, hlk] at hib
        by_cases hi : i = bid
        · subst hi
          rw [updateAt_get?_self, hg] at hib
          injection hib with hb
          subst hb
          exact Or.inl ⟨b0, hg, Or.inl rfl⟩
        · rw [updateAt_get?_ne _ _ _ _ hi] at hib
          exact Or.inl ⟨b, hib, Or.inl rfl⟩
      | none =>
        simp only [hcm, hlk] at hib
        unfold loadMiss at hib
        simp only [hcm] at hib
        by_cases hi : i = bid
        · subst hi
          rw [updateAt_get?_self, hg] at hib
          injection hib with hb
          subst hb
          exact Or.inl ⟨b0, hg, Or.inr ⟨rfl, hu⟩⟩
        · rw [updateAt_get?_ne _ _ _ _ hi] at hib
          exact Or.inl ⟨b, hib, Or.inl rfl⟩
  · unfold loadK at hib
    rw [heq] at hib
    have hfg : (l.batches ++ [(⟨false, [], [], none⟩ : Batch K)]).get? l.batches.length
        = some ⟨false, [], [], none⟩ := List.get?_concat_length _ _
    have hside : ∀ (hib2 : (updateAt (l.batches ++ [(⟨false, [], [], none⟩ : Batch K)])
        l.batches.length
        (fun b => { b with keys := b.keys ++ [k], callbacks := b.callbacks ++ [l.promises.length] })).get? i = some b),
        (∃ b0, l.batches.get? i = some b0 ∧
          (b.keys = b0.keys ∨ (b.keys = b0.keys ++ [k] ∧ batchUsable l b0 = true)))
        ∨ b.keys = [] ∨ b.keys = [k] := by
      intro hib2
      by_cases hi : i = l.batches.length
      · subst hi
        rw [updateAt_get?_self, hfg] at hib2
        injection hib2 with hb
        subst hb
        exact Or.inr (Or.inr rfl)
      · rw [updateAt_get?_ne _ _ _ _ hi] at hib2
        by_cases hlt : i < l.batches.length
        · rw [List.get?_append hlt] at hib2
          exact Or.inl ⟨b, hib2, Or.inl rfl⟩
        · exfalso
          have hnone : (l.batches ++ [(⟨false, [], [], none⟩ : Batch K)]).get? i = none := by
            refine List.get?_eq_none.mpr ?_
            rw [List.length_append, List.length_singleton]
            omega
          rw [hnone] at hib2
          cases hib2
    cases hcm : l.cacheMap with
    | none =>
      simp only [hcm] at hib
      unfold loadMiss at hib
      simp only [hcm] at hib
      exact hside hib
    | some cm =>
      cases hlk : assocLookup cm (l.cacheKeyFn k) with
      | some cpid =>
        simp only [hcm, hlk] at hib
        by_cases hi : i = l.batches.length
        · subst hi
          rw [updateAt_get?_self, hfg] at hib
          injection hib with hb
          subst hb
          exact Or.inr (Or.inl rfl)
        · rw [updateAt_get?_ne _ _ _ _ hi] at hib
          by_cases hlt : i < l.batches.length
          · rw [List.get?_append hlt] at hib
            exact Or.inl ⟨b, hib, Or.inl rfl⟩
          · exfalso
            have hnone : (l.batches ++ [(⟨false, [], [], none⟩ : Batch K)]).get? i = none := by
              refine List.get?_eq_none.mpr ?_
              rw [List.length_append, List.length_singleton]
              omega
            rw [hnone] at hib
            cases hib
      | none =>
        simp only [hcm, hlk] at hib
        unfold loadMiss at hib
        simp only [hcm] at hib
        exact hside hib

/-- A single `load` preserves the bound "every batch holds at most `m`
keys" when the configured maximum is `m ≥ 1`. -/
theorem loadK_keys_bound {K C V : Type} [DecidableEq C] (m : Nat) (hm : 1 ≤ m)
    (l : Loader K C V) (k : K) (hmax : l.maxBatchSize = some m)
    (hall : ∀ i b, l.batches.get? i = some b → b.keys.length ≤ m) :
    ∀ i b, ((loadK l k).2).batches.get? i = some b → b.keys.length ≤ m := by
  intro i b hib
  rcases loadK_keys_cases l k i b hib with ⟨b0, hg, hk | ⟨hk, hu⟩⟩ | hk | hk
  · rw [hk]
    exact hall i b0 hg
  · rw [hk, List.length_append, List.length_singleton]
    have hun := ((batchUsable_spec l b0).mp hu).2.1
    rw [hmax] at hun
    have : b0.keys.length < m := by
      simpa [underMax] using hun
    omega
  · rw [hk]
    exact Nat.zero_le m
  · rw [hk]
    exact hm

/-- Claim C5: with maximum batch size `m ≥ 1`, no batch ever holds more
than `m` keys (both along the concrete tick of `n > m` distinct loads and
as a one-step preservation fact for any loader configured with maximum
`m`), and flushing the tick of `n` distinct loads issues exactly
`ceil(n/m) = (n + m - 1) / m` backend calls, each carrying between 1 and
`m` keys, whatever the backend does. -/
theorem c5_max_batch_size_accounting (m n : Nat) (hm : 1 ≤ m) (hn : m < n)
    (backend : List Nat → BackendResult Unit) :
    (∀ i b, (afterLoads m n).batches.get? i = some b → b.keys.length ≤ m)
    ∧ (runScheduled backend (afterLoads m n)).backendCalls.length = (n + m - 1) / m
    ∧ (∀ call ∈ (runScheduled backend (afterLoads m n)).backendCalls,
        1 ≤ call.length ∧ call.length ≤ m)
    ∧ (∀ (K C V : Type) (inst : DecidableEq C) (l : Loader K C V) (k : K),
        l.maxBatchSize = some m →
        (∀ i b, l.batches.get? i = some b → b.keys.length ≤ m) →
        (∀ i b, ((loadK l k).2).batches.get? i = some b → b.keys.length ≤ m)) := by
  have hn1 : 1 ≤ n := by omega
  have hm0 : 0 < m := by omega
  rcases loadedInv_holds m hm n hn1 with ⟨hmax, hckf, hlen, hbat, hpd, hall,
    hlast, hcmap, hbc, hpl⟩
  have hq : ∀ bid ∈ List.range (afterLoads m n).batches.length,
      ∃ b, (afterLoads m n).batches.get? bid = some b ∧ b.keys ≠ [] := by
    intro bid hbid
    have hlt : bid < (afterLoads m n).batches.length := List.mem_range.mp hbid
    refine ⟨(afterLoads m n).batches.get ⟨bid, hlt⟩, List.get?_eq_get hlt, ?_⟩
    have := hall bid _ (List.get?_eq_get hlt)
    exact List.ne_nil_of_length_pos (by omega)
  have hq' : ∀ bid ∈ List.range (afterLoads m n).batches.length,
      ∃ b, ({ afterLoads m n with pendingDispatches := ([] : List Nat) } :
        Loader Nat Nat Unit).batches.get? bid = some b ∧ b.keys ≠ [] := hq
  rcases dispatchFold_calls backend (List.range (afterLoads m n).batches.length)
    { afterLoads m n with pendingDispatches := ([] : List Nat) } hq'
    with ⟨calls, hcalls, hclen, hcget⟩
  have hrun : (runScheduled backend (afterLoads m n)).backendCalls = calls := by
    unfold runScheduled
    rw [hpd, hcalls]
    show (afterLoads m n).backendCalls ++ calls = calls
    rw [hbc]
    rfl
  refine ⟨fun i b h => (hall i b h).2.2.2, ?_, ?_, ?_⟩
  · rw [hrun, hclen, List.length_range, hlen,
      show n + m - 1 = (n - 1) + m from by omega, Nat.add_div_right _ hm0]
  · intro call hcall
    rw [hrun] at hcall
    rcases List.mem_iff_get?.mp hcall with ⟨i, hci⟩
    have hilt : i < calls.length := (List.get?_eq_some.mp hci).1
    rw [hclen, List.length_range] at hilt
    have hqi : (List.range (afterLoads m n).batches.length).get? i = some i :=
      List.get?_range hilt
    rcases hq i (List.mem_range.mpr hilt) with ⟨b, hb, hne⟩
    have := hcget i i b hqi hb
    rw [hci] at this
    injection this with hcb
    rcases hall i b hb with ⟨_, _, h1, h2⟩
    rw [hcb]
    exact ⟨h1, h2⟩
  · intro K C V inst l k hmax2 hall2
    exact loadK_keys_bound m hm l k hmax2 hall2

/-- Concrete instance of C5 at `m = 2`, `n = 5`: three backend calls of
at most two keys each. -/
theorem c5_max_batch_size_accounting_witness :
    (∀ i b, (afterLoads 2 5).batches.get? i = some b → b.keys.length ≤ 2)
    ∧ (runScheduled (fun _ => .resolvesArray []) (afterLoads 2 5)).backendCalls.length
        = (5 + 2 - 1) / 2
    ∧ (∀ call ∈ (runScheduled (fun _ => .resolvesArray []) (afterLoads 2 5)).backendCalls,
        1 ≤ call.length ∧ call.length ≤ 2)
    ∧ (∀ (K C V : Type) (inst : DecidableEq C) (l : Loader K C V) (k : K),
        l.maxBatchSize = some 2 →
        (∀ i b, l.batches.get? i = some b → b.keys.length ≤ 2) →
        (∀ i b, ((loadK l k).2).batches.get? i = some b → b.keys.length ≤ 2)) :=
  c5_max_batch_size_accounting 2 5 (by decide) (by decide)
    (fun _ => .resolvesArray [])

/-- Claim C9 (amended): usage errors fail synchronously at the call site
(as a thrown `TypeError`, never a rejected future): a non-callable
backend function always throws at construction; a non-positive or
non-numeric maximum batch size throws when batching is enabled; a
non-callable scheduler or cache-key projection throws; a custom cache
store missing any of the four capabilities throws when caching is
enabled; `load` with the absence sentinel throws; and `loadMany` with a
non-array-like argument throws. -/
theorem c9_usage_errors_throw :
    (∀ opts, isThrow (dataLoaderCtor .notCallable opts) = true)
    ∧ (∀ (o : OptionsJs) (v : Int), v < 1 → o.batch ≠ some false →
        o.maxBatchSize = some (.num v) →
        isThrow (dataLoaderCtor .callable (some o)) = true)
    ∧ (∀ o : OptionsJs, o.batch ≠ some false → o.maxBatchSize = some .nonNumber →
        isThrow (dataLoaderCtor .callable (some o)) = true)
    ∧ (∀ o : OptionsJs, o.batchScheduleFn = some .notCallable →
        isThrow (dataLoaderCtor .callable (some o)) = true)
    ∧ (∀ o : OptionsJs, o.cacheKeyFn = some .notCallable →
        isThrow (dataLoaderCtor .callable (some o)) = true)
    ∧ (∀ (o : OptionsJs) (caps : StoreCaps), o.cache ≠ some false →
        o.cacheMap = some (some caps) →
        (caps.hasGet && caps.hasSet && caps.hasDelete && caps.hasClear) = false →
        isThrow (dataLoaderCtor .callable (some o)) = true)
    ∧ (∀ (K C V : Type) (inst : DecidableEq C) (l : Loader K C V),
        isThrow (load l none) = true)
    ∧ (∀ (K C V : Type) (inst : DecidableEq C) (l : Loader K C V),
        isThrow (loadMany l .notArrayLike) = true) := by
  refine ⟨fun opts => rfl, ?_, ?_, ?_, ?_, ?_, fun K C V inst l => rfl,
    fun K C V inst l => rfl⟩
  · intro o v hv hb hmx
    unfold dataLoaderCtor
    cases hsf : getValidBatchScheduleFn (some o) with
    | error e => rfl
    | ok sf =>
      have hms : getValidMaxBatchSize (some o)
          = .error "maxBatchSize must be a positive number" := by
        unfold getValidMaxBatchSize shouldBatchOf
        simp [hmx, hb, hv]
      rw [hms]
      rfl
  · intro o hb hmx
    unfold dataLoaderCtor
    cases hsf : getValidBatchScheduleFn (some o) with
    | error e => rfl
    | ok sf =>
      have hms : getValidMaxBatchSize (some o)
          = .error "maxBatchSize must be a positive number" := by
        unfold getValidMaxBatchSize shouldBatchOf
        simp [hmx, hb]
      rw [hms]
      rfl
  · intro o hsf
    unfold dataLoaderCtor
    have : getValidBatchScheduleFn (some o)
        = .error "batchScheduleFn must be a function" := by
      unfold getValidBatchScheduleFn
      simp [hsf]
    rw [this]
    rfl
  · intro o hkf
    unfold dataLoaderCtor
    cases hsf : getValidBatchScheduleFn (some o) with
    | error e => rfl
    | ok sf =>
      cases hms : getValidMaxBatchSize (some o) with
      | error e => rfl
      | ok ms =>
        have : getValidCacheKeyFn (some o) = .error "cacheKeyFn must be a function" := by
          unfold getValidCacheKeyFn
          simp [hkf]
        rw [this]
        rfl
  · intro o caps hc hcmp hcaps
    unfold dataLoaderCtor
    cases hsf : getValidBatchScheduleFn (some o) with
    | error e => rfl
    | ok sf =>
      cases hms : getValidMaxBatchSize (some o) with
      | error e => rfl
      | ok ms =>
        cases hkf : getValidCacheKeyFn (some o) with
        | error e => rfl
        | ok kf =>
          have : getValidCacheMap (some o) = .error "Custom cacheMap missing methods" := by
            unfold getValidCacheMap shouldCacheOf
            simp [hcmp, hc, hcaps]
          rw [this]
          rfl

/-- Concrete instances of C9 (amended): each usage error throws. -/
theorem c9_usage_errors_throw_witness :
    isThrow (dataLoaderCtor .notCallable none) = true
    ∧ isThrow (dataLoaderCtor .callable
        (some ⟨none, some (.num 0), none, none, none, none⟩)) = true
    ∧ isThrow (dataLoaderCtor .callable
        (some ⟨none, some .nonNumber, none, none, none, none⟩)) = true
    ∧ isThrow (dataLoaderCtor .callable
        (some ⟨none, none, some .notCallable, none, none, none⟩)) = true
    ∧ isThrow (dataLoaderCtor .callable
        (some ⟨none, none, none, none, some .notCallable, none⟩)) = true
    ∧ isThrow (dataLoaderCtor .callable
        (some ⟨none, none, none, none, none, some (some ⟨true, true, true, false⟩)⟩)) = true
    ∧ isThrow (load (mkLoader (K := Nat) (C := Nat) (V := Nat) none id true) none) = true
    ∧ isThrow (loadMany (mkLoader (K := Nat) (C := Nat) (V := Nat) none id true)
        .notArrayLike) = true :=
  ⟨c9_usage_errors_throw.1 none,
   c9_usage_errors_throw.2.1 ⟨none, some (.num 0), none, none, none, none⟩ 0
     (by decide) (by decide) rfl,
   c9_usage_errors_throw.2.2.1 ⟨none, some .nonNumber, none, none, none, none⟩
     (by decide) rfl,
   c9_usage_errors_throw.2.2.2.1 ⟨none, none, some .notCallable, none, none, none⟩ rfl,
   c9_usage_errors_throw.2.2.2.2.1 ⟨none, none, none, none, some .notCallable, none⟩ rfl,
   c9_usage_errors_throw.2.2.2.2.2.1 ⟨none, none, none, none, none,
     some (some ⟨true, true, true, false⟩)⟩ ⟨true, true, true, false⟩
     (by decide) rfl (by decide),
   c9_usage_errors_throw.2.2.2.2.2.2.1 Nat Nat Nat instDecidableEqNat
     (mkLoader none id true),
   c9_usage_errors_throw.2.2.2.2.2.2.2 Nat Nat Nat instDecidableEqNat
     (mkLoader none id true)⟩

/-- The original C9 is false in two corners: with batching disabled the
maximum batch size is not validated (a non-positive value does not
throw), and with caching disabled a custom store missing all four
capabilities does not throw; both constructions succeed. -/
theorem c9_counterexample :
    isThrow (dataLoaderCtor .callable
      (some ⟨some false, some (.num 0), none, none, none, none⟩)) = false
    ∧ isThrow (dataLoaderCtor .callable
      (some ⟨none, none, none, some false, none,
        some (some ⟨false, false, false, false⟩)⟩)) = false := by
  decide

end DLModel
